import Mathlib

/-!
# image-compress: a verification development

A shallow embedding of the core of `miguelmoralesr13/image-compress`
(`internal/services/zip_service.go`, `internal/services/image_processor.go`,
`internal/domain`, and the handlers `compressImage` and `compressBatch` of
`image_compress.go`) together with theorems about it.

## Modelling conventions

* A Go `string` is a Lean `String`.  Go strings are byte sequences and the
  `strings` functions below search byte-wise; every pattern the program searches
  for is a single-byte ASCII character or a pair of them, and the functions
  below only ever compare characters with these.  In UTF-8 no byte of a
  multi-byte sequence equals an ASCII byte, so on text the byte-wise search and
  the character-wise search find the same matches; and a Go string that is not
  UTF-8 is covered by reading each byte as the character of that code, since the
  theorems hold for every sequence of characters.
* A Go `[]byte` is a `List UInt8`; only its length and the (external) codec ever
  look at it.
* Go `int` / `int64` values are `Int`; where the source subtracts two of them the
  result is wrapped to 64 bits explicitly (`wrapInt64`).
* A function returning `(T, error)` returns `Except Error T`: `return nil, e`
  is `.error e`, `return v, nil` is `.ok v`.
* A handler takes its services as values of the interfaces `domain.ImageProcessor`
  and `domain.ZipService`, whose implementations may keep a state: a method takes
  the state before the call and gives the state after it, and a handler maps a
  request and a state to a response and a state.  Services that record their
  calls in the state show which calls a handler makes.
* What a handler reads from the request through the standard library (the
  parsed multipart form, the decoded JSON body) is its input; `time.Now().Unix()`
  is a parameter.
* The standard library (`image.Decode`, `jpeg.Encode`, `png.Encode`,
  `archive/zip`) is not part of the repository; the codec and the zip writer are
  parameters of the embedded functions.  `filepath.Base` and
  `strings.ReplaceAll` are small pure functions and are embedded from their Go
  definitions (`filepath.Base` for a Unix target, separator `/`).
-/

namespace ImageCompress

/-! ## Go standard library: `strings.ReplaceAll`, `filepath.Base` -/

/-- The loop of Go's `strings.Replace(s, old, new, -1)` for a non-empty `old`,
on the characters still to be read.  The first argument is the number of
characters of a match that are still to be skipped (Go's `start = j + len(old)`).
At each position outside a match, the leftmost occurrence of `old` is looked
for: if `old` starts here, `new` is written and the match is skipped, otherwise
the character is copied. -/
def replaceFrom (old new : List Char) : Nat → List Char → List Char
  | _, [] => []
  | skip + 1, _ :: cs => replaceFrom old new skip cs
  | 0, c :: cs =>
    if old.isPrefixOf (c :: cs) then new ++ replaceFrom old new (old.length - 1) cs
    else c :: replaceFrom old new 0 cs

/-- Go's `strings.ReplaceAll` on character lists: every non-overlapping
occurrence of `old`, taken from the left, is replaced by `new`.  For an empty
`old` Go inserts `new` before every character and at the end. -/
def replaceAllChars (s old new : List Char) : List Char :=
  if old = [] then new ++ s.flatMap (fun c => c :: new)
  else replaceFrom old new 0 s

/-- The function `strings.ReplaceAll(s, old, new)`. -/
def ReplaceAll (s old new : String) : String :=
  ⟨replaceAllChars s.data old.data new.data⟩

/-- The function `strings.Contains(s, substr)`: `substr` occurs in `s` as a
contiguous block. -/
def Contains (s substr : String) : Prop :=
  substr.data <:+: s.data

instance (s substr : String) : Decidable (Contains s substr) :=
  inferInstanceAs (Decidable (substr.data <:+: s.data))

/-- The path separator of `path/filepath` on a Unix target. -/
def Separator : Char := '/'

/-- Go's `path = path[0:len(path)-1]` while the last character is a separator. -/
def stripTrailingSeparators (path : List Char) : List Char :=
  (path.reverse.dropWhile (fun c => c == Separator)).reverse

/-- Go's scan `i := len(path)-1; for i >= 0 && !IsPathSeparator(path[i]) { i-- }`
followed by `path = path[i+1:]` when `i >= 0`: what follows the last separator,
the whole path when it has none. -/
def lastElement (path : List Char) : List Char :=
  (path.reverse.takeWhile (fun c => !(c == Separator))).reverse

/-- Go's `filepath.Base` (Unix: the volume name is always empty). -/
def Base (path : String) : String :=
  if path = "" then "."
  else
    let p := lastElement (stripTrailingSeparators path.data)
    if p = [] then String.singleton Separator else ⟨p⟩

/-! ## `internal/services/zip_service.go` -/

/-- Lines 61 to 70 of `sanitizeFilename`: the "problematic" sequences of the
base name are replaced one after the other. -/
def replaceProblematic (baseName : String) : String :=
  let baseName := ReplaceAll baseName ".." ""
  let baseName := ReplaceAll baseName "/" "_"
  let baseName := ReplaceAll baseName "\\" "_"
  let baseName := ReplaceAll baseName ":" "_"
  let baseName := ReplaceAll baseName "*" "_"
  let baseName := ReplaceAll baseName "?" "_"
  let baseName := ReplaceAll baseName "\"" "_"
  let baseName := ReplaceAll baseName "<" "_"
  let baseName := ReplaceAll baseName ">" "_"
  let baseName := ReplaceAll baseName "|" "_"
  baseName

/-- Lines 58 to 70 of `sanitizeFilename`: the base name of the path, cleaned. -/
def cleanBaseName (filename : String) : String :=
  replaceProblematic (Base filename)

/-- The method `ZipService.sanitizeFilename`: the cleaned base name, or the
default name when that is empty or a single dot. -/
def sanitizeFilename (filename : String) : String :=
  let baseName := cleanBaseName filename
  if baseName = "" ∨ baseName = "." then "image" else baseName

/-- The nine characters that `sanitizeFilename` replaces by `_`. -/
def illegalChars : List Char := ['/', '\\', ':', '*', '?', '"', '<', '>', '|']

/-- The effect of the nine one-character replacements on one character. -/
def placeholderFor (c : Char) : Char := if c ∈ illegalChars then '_' else c

/-- No two neighbours are both dots. -/
def NoDotPair (a b : Char) : Prop := ¬ (a = '.' ∧ b = '.')

/-! ## `internal/domain` -/

/-- Results of fallible functions can be compared when their parts can. -/
instance instDecidableEqExcept {ε α : Type} [DecidableEq ε] [DecidableEq α] :
    DecidableEq (Except ε α)
  | .ok a, .ok b =>
    if h : a = b then isTrue (congrArg Except.ok h) else isFalse (fun e => h (Except.ok.inj e))
  | .error a, .error b =>
    if h : a = b then isTrue (congrArg Except.error h)
    else isFalse (fun e => h (Except.error.inj e))
  | .ok _, .error _ => isFalse (fun e => Except.noConfusion e)
  | .error _, .ok _ => isFalse (fun e => Except.noConfusion e)

/-- A Go byte slice. -/
abbrev Bytes := List UInt8

/-- The type `domain.ImageFormat`, a string type. -/
abbrev ImageFormat := String

/-- The constant `domain.JPEG`. -/
def JPEG : ImageFormat := "jpeg"

/-- The constant `domain.PNG`. -/
def PNG : ImageFormat := "png"

/-- The constant `domain.WEBP`. -/
def WEBP : ImageFormat := "webp"

/-- Go `error` values as the program produces them: the seven sentinel errors of
`domain/errors.go`, an error `E` of the standard library handed on unchanged,
`fmt.Errorf(msg)` and `fmt.Errorf(msg + "%w", err)` around a standard-library
error.  Each `fmt.Errorf` call makes a fresh value, so a wrapped error is never
equal to a sentinel. -/
inductive Error (E : Type) where
  | ErrInvalidImageFormat
  | ErrImageTooLarge
  | ErrInvalidQuality
  | ErrEmptyImageData
  | ErrUnsupportedFormat
  | ErrBatchSizeExceeded
  | ErrInvalidImageData
  | external (err : E)
  | errorf (msg : String)
  | wrapf (msg : String) (err : E)
  deriving DecidableEq

/-! ## Go standard library: `image` -/

/-- The type `image.Point`. -/
structure Point where
  X : Int
  Y : Int
  deriving DecidableEq

/-- The type `image.Rectangle`. -/
structure Rectangle where
  Min : Point
  Max : Point
  deriving DecidableEq

/-- A mathematical integer as a 64-bit Go `int` (two's complement wrap-around). -/
def wrapInt64 (x : Int) : Int := (x + 2 ^ 63) % 2 ^ 64 - 2 ^ 63

/-- The method `Rectangle.Dx`: `r.Max.X - r.Min.X` in Go `int` arithmetic. -/
def Rectangle.Dx (r : Rectangle) : Int := wrapInt64 (r.Max.X - r.Min.X)

/-- The method `Rectangle.Dy`: `r.Max.Y - r.Min.Y` in Go `int` arithmetic. -/
def Rectangle.Dy (r : Rectangle) : Int := wrapInt64 (r.Max.Y - r.Min.Y)

/-- The image codec of the standard library, as the program uses it.
`Decode data` is `image.Decode(bytes.NewReader(data))`: the decoded image and
the name of the detected format, or an error.  `Bounds` is `img.Bounds()`.
`jpegEncode img q` is `jpeg.Encode(&buf, img, &jpeg.Options{Quality: q})` into a
fresh buffer followed by `buf.Bytes()`; `pngEncode img` likewise for
`png.Encode(&buf, img)`. -/
structure Codec (Img E : Type) where
  Decode : Bytes → Except E (Img × String)
  Bounds : Img → Rectangle
  jpegEncode : Img → Int → Except E Bytes
  pngEncode : Img → Except E Bytes

/-! ## `internal/services/image_processor.go` -/

/-- The struct `ImageProcessorService`. -/
structure ImageProcessorService where
  maxImageSize : Int
  deriving DecidableEq

/-- The function `NewImageProcessorService`. -/
def NewImageProcessorService (maxImageSize : Int) : ImageProcessorService :=
  { maxImageSize := maxImageSize }

section
variable {Img E : Type}

/-- The `switch format` of `CompressImage`: which encoder writes the buffer. -/
def encodeAs (codec : Codec Img E) (img : Img) (quality : Int) (format : ImageFormat) :
    Except E Bytes :=
  if format = JPEG then codec.jpegEncode img quality
  else if format = PNG then codec.pngEncode img
  else if format = WEBP then codec.jpegEncode img quality
  else codec.jpegEncode img quality

/-- The method `ImageProcessorService.CompressImage`. -/
def CompressImage (codec : Codec Img E) (imageData : Bytes) (quality : Int)
    (format : ImageFormat) : Except (Error E) Bytes :=
  if imageData.length = 0 then .error .ErrEmptyImageData
  else if quality < 1 ∨ quality > 100 then .error .ErrInvalidQuality
  else
    match codec.Decode imageData with
    | .error err => .error (.wrapf "error decodificando imagen: " err)
    | .ok (img, _) =>
      match encodeAs codec img quality format with
      | .error err => .error (.wrapf "error codificando imagen: " err)
      | .ok buf => .ok buf

/-- The method `ImageProcessorService.ValidateImage`; `.ok ()` is Go's `nil`. -/
def ValidateImage (codec : Codec Img E) (s : ImageProcessorService) (imageData : Bytes) :
    Except (Error E) Unit :=
  if imageData.length = 0 then .error .ErrEmptyImageData
  else if (imageData.length : Int) > s.maxImageSize then .error .ErrImageTooLarge
  else
    match codec.Decode imageData with
    | .error _ => .error .ErrInvalidImageData
    | .ok _ => .ok ()

/-- The method `ImageProcessorService.convertFormat`. -/
def convertFormat (formatStr : String) : ImageFormat :=
  if formatStr = "jpeg" ∨ formatStr = "jpg" then JPEG
  else if formatStr = "png" then PNG
  else if formatStr = "webp" then WEBP
  else JPEG

/-- The method `ImageProcessorService.GetImageInfo`: width, height and format. -/
def GetImageInfo (codec : Codec Img E) (imageData : Bytes) :
    Except (Error E) (Int × Int × ImageFormat) :=
  if imageData.length = 0 then .error .ErrEmptyImageData
  else
    match codec.Decode imageData with
    | .error err => .error (.external err)
    | .ok (img, formatStr) =>
      let bounds := codec.Bounds img
      .ok (bounds.Dx, bounds.Dy, convertFormat formatStr)

end

/-! ## Go standard library: `archive/zip` -/

/-- The zip writer of the standard library over a fresh buffer, as the program
uses it; `W` is the state of the writer together with its buffer.  `NewWriter`
is `zip.NewWriter(&buf)`, `Create w name` is `zipWriter.Create(name)`,
`Write w data` is `writer.Write(data)` on the entry just created, `Close w` is
`zipWriter.Close()` and `Bytes w` is `buf.Bytes()`. -/
structure ZipWriter (W E : Type) where
  NewWriter : W
  Create : W → String → Except E W
  Write : W → Bytes → Except E W
  Close : W → Except E W
  Bytes : W → Bytes

section
variable {W E : Type}

/-- The loop `for filename, data := range files` of `CreateZip`, over the
entries of the map in the order the iteration visits them. -/
def addFiles (z : ZipWriter W E) : List (String × Bytes) → W → Except (Error E) W
  | [], w => .ok w
  | (filename, data) :: rest, w =>
    let sanitizedFilename := sanitizeFilename filename
    match z.Create w sanitizedFilename with
    | .error err => .error (.wrapf ("error creando entrada ZIP para " ++ filename ++ ": ") err)
    | .ok w1 =>
      match z.Write w1 data with
      | .error err => .error (.wrapf ("error escribiendo datos para " ++ filename ++ ": ") err)
      | .ok w2 => addFiles z rest w2

/-- The method `ZipService.CreateZip`.  The Go map `files` is given by the
sequence of its entries in iteration order. -/
def CreateZip (z : ZipWriter W E) (files : List (String × Bytes)) : Except (Error E) Bytes :=
  if files.length = 0 then .error (.errorf "no hay archivos para comprimir")
  else
    match addFiles z files z.NewWriter with
    | .error e => .error e
    | .ok w =>
      match z.Close w with
      | .error err => .error (.wrapf "error cerrando ZIP: " err)
      | .ok w1 => .ok (z.Bytes w1)

end

/-! ## Statements and instances used by the theorems -/

/-- Compressing `imageData` as `requested` succeeds and `GetImageInfo` on the
output succeeds and reports the format `reported`. -/
def RoundTrip {Img E : Type} (codec : Codec Img E) (imageData : Bytes) (quality : Int)
    (requested reported : ImageFormat) : Prop :=
  ∃ out, CompressImage codec imageData quality requested = .ok out ∧
    ∃ width height, GetImageInfo codec out = .ok (width, height, reported)

/-- A small codec for concrete evaluation.  An image is its width and height.
The bytes `[0, w, h, q]` are a "jpeg" of `w` by `h` pixels written at quality
`q`, the bytes `[1, w, h]` a "png" of `w` by `h` pixels; anything else is not an
image. -/
def toyCodec : Codec (Nat × Nat) String where
  Decode := fun data =>
    match data with
    | [t, w, h] => if t = 1 then .ok ((w.toNat, h.toNat), "png") else .error "unknown format"
    | [t, w, h, _] => if t = 0 then .ok ((w.toNat, h.toNat), "jpeg") else .error "unknown format"
    | _ => .error "unknown format"
  Bounds := fun img => ⟨⟨0, 0⟩, ⟨img.1, img.2⟩⟩
  jpegEncode := fun img quality =>
    .ok [0, UInt8.ofNat img.1, UInt8.ofNat img.2, UInt8.ofNat quality.toNat]
  pngEncode := fun img => .ok [1, UInt8.ofNat img.1, UInt8.ofNat img.2]

/-- A codec that rejects every input and cannot encode. -/
def rejectingCodec : Codec Unit String where
  Decode := fun _ => .error "unknown format"
  Bounds := fun _ => ⟨⟨0, 0⟩, ⟨0, 0⟩⟩
  jpegEncode := fun _ _ => .error "no encoder"
  pngEncode := fun _ => .error "no encoder"

/-- The small codec without its "jpeg" encoder: `jpegEncode` fails on every
image, the rest is as in `toyCodec`. -/
def pngOnlyCodec : Codec (Nat × Nat) String where
  Decode := toyCodec.Decode
  Bounds := toyCodec.Bounds
  jpegEncode := fun _ _ => .error "image is too large to encode"
  pngEncode := toyCodec.pngEncode

/-- A zip writer for concrete evaluation: its state is the list of entries
written so far, last entry first; it never fails and its bytes are the entries'
contents one after the other. -/
def toyZip : ZipWriter (List (String × Bytes)) String where
  NewWriter := []
  Create := fun w name => .ok ((name, []) :: w)
  Write := fun w data =>
    match w with
    | [] => .error "no entry"
    | (name, old) :: rest => .ok ((name, old ++ data) :: rest)
  Close := fun w => .ok w
  Bytes := fun w => (w.reverse.map (fun e => e.2)).flatten

/-! ## Go standard library: `strconv.Atoi`, `net/http` -/

/-- The value of a run of ASCII decimal digits read from the left, starting from
the value `n` of the digits already read; `none` when a character is not a
digit (Go's `ch -= '0'; if ch > 9`). -/
def parseDigits : List Char → Nat → Option Nat
  | [], n => some n
  | c :: cs, n =>
    if '0' ≤ c ∧ c ≤ '9' then parseDigits cs (n * 10 + (c.toNat - '0'.toNat)) else none

/-- Go's `strconv.Atoi` on a 64-bit target; `none` stands for a non-nil error.
The string is an optional sign followed by at least one decimal digit, and the
value lies in the range of `int`. -/
def Atoi (s : String) : Option Int :=
  match s.data with
  | [] => none
  | c :: cs =>
    let digits := if c = '-' ∨ c = '+' then cs else c :: cs
    if digits = [] then none
    else
      match parseDigits digits 0 with
      | none => none
      | some n =>
        let v : Int := if c = '-' then -(n : Int) else (n : Int)
        if -(2 ^ 63) ≤ v ∧ v < 2 ^ 63 then some v else none

/-- The body of an HTTP response: text or bytes. -/
inductive Body where
  | text (s : String)
  | bytes (b : Bytes)
  deriving DecidableEq

/-- An HTTP response as a handler leaves it: status code, the headers the
handler set, body. -/
structure Response where
  status : Nat
  headers : List (String × String)
  body : Body
  deriving DecidableEq

/-- The constant `http.StatusOK`. -/
def StatusOK : Nat := 200

/-- The constant `http.StatusBadRequest`. -/
def StatusBadRequest : Nat := 400

/-- The constant `http.StatusInternalServerError`. -/
def StatusInternalServerError : Nat := 500

/-- Go's `http.Error(w, msg, code)` on a response nothing was written to: a
plain-text response with the given status whose body is the message and a line
end. -/
def httpError (msg : String) (code : Nat) : Response :=
  { status := code
    headers := [("Content-Type", "text/plain; charset=utf-8"),
      ("X-Content-Type-Options", "nosniff")]
    body := .text (msg ++ "\n") }

/-- The result of `r.FormFile("image")` followed by `io.ReadAll(file)`: no such
file in the form, a file that cannot be read, or the bytes of the file. -/
inductive FormFile where
  | missing
  | unreadable
  | content (data : Bytes)
  deriving DecidableEq

/-- A request to a multipart handler, as the handler reads it: whether
`r.ParseMultipartForm` fails, the file under the field `image`, and the values
of the form, one pair per field. -/
structure MultipartRequest where
  malformed : Bool
  image : FormFile
  form : List (String × String)

/-- Go's `r.FormValue(key)`: the first value of the field, the empty string when
the form has no such field. -/
def MultipartRequest.FormValue (r : MultipartRequest) (key : String) : String :=
  match r.form.lookup key with
  | some v => v
  | none => ""

/-! ## `internal/domain`: requests, interfaces, error messages -/

/-- The struct `domain.ImageData`. -/
structure ImageData where
  Filename : String
  Data : Bytes
  deriving DecidableEq

/-- The struct `domain.BatchCompressionRequest`. -/
structure BatchCompressionRequest where
  Images : List ImageData
  Quality : Int
  Format : ImageFormat
  deriving DecidableEq

/-- The method `Error()` of an error value, given the one of the standard
library's errors: the sentinels carry the texts of `domain/errors.go`,
`fmt.Errorf` its formatted text. -/
def errorString {E : Type} (inner : E → String) : Error E → String
  | .ErrInvalidImageFormat => "formato de imagen no válido"
  | .ErrImageTooLarge => "imagen demasiado grande"
  | .ErrInvalidQuality => "calidad de compresión inválida"
  | .ErrEmptyImageData => "datos de imagen vacíos"
  | .ErrUnsupportedFormat => "formato de imagen no soportado"
  | .ErrBatchSizeExceeded => "tamaño del lote excedido"
  | .ErrInvalidImageData => "datos de imagen inválidos"
  | .external err => inner err
  | .errorf msg => msg
  | .wrapf msg err => msg ++ inner err

/-- The interface `domain.ImageProcessor`.  A handler only knows the interface,
so an implementation may keep a state `S`; each method takes the state before
the call and gives the state after it. -/
structure ImageProcessor (S Err : Type) where
  CompressImage : S → Bytes → Int → ImageFormat → Except Err Bytes × S
  ValidateImage : S → Bytes → Except Err Unit × S
  GetImageInfo : S → Bytes → Except Err (Int × Int × ImageFormat) × S

/-- The interface `domain.ZipService`, with the state of the implementation as in
`ImageProcessor`.  The Go map is the list of its entries, one per key. -/
structure ZipService (S Err : Type) where
  CreateZip : S → List (String × Bytes) → Except Err Bytes × S

/-! ## `image_compress.go`: the handlers -/

/-- Go's `files[filename] = data` on a map given by the list of its entries: the
value of an existing key is replaced, a new key gets an entry of its own. -/
def mapInsert : List (String × Bytes) → String → Bytes → List (String × Bytes)
  | [], filename, data => [(filename, data)]
  | (k, v) :: rest, filename, data =>
    if k = filename then (filename, data) :: rest else (k, v) :: mapInsert rest filename data

/-- Lines 153 to 159 of `compressImage`: the quality, 80 unless the field is
non-empty and `strconv.Atoi` accepts it. -/
def qualityParam (qualityStr : String) : Int :=
  if qualityStr ≠ "" then
    match Atoi qualityStr with
    | some q => q
    | none => 80
  else 80

/-- Lines 161 to 165 of `compressImage`: the format, `jpeg` unless the field is
non-empty. -/
def formatParam (formatStr : String) : ImageFormat :=
  if formatStr ≠ "" then formatStr else JPEG

/-- The handler `compressImage` (POST /compress) on the state `s` of the
processor; `errString` is the method `Error()` of the processor's errors and
`now` is `time.Now().Unix()`.  The write of the body to the client is taken to
succeed. -/
def compressImage {S Err : Type} (processor : ImageProcessor S Err) (errString : Err → String)
    (now : Int) (r : MultipartRequest) (s : S) : Response × S :=
  if r.malformed then (httpError "Error parseando formulario multipart" StatusBadRequest, s)
  else
    match r.image with
    | .missing => (httpError "Error obteniendo archivo de imagen" StatusBadRequest, s)
    | .unreadable => (httpError "Error leyendo datos de imagen" StatusBadRequest, s)
    | .content imageData =>
      let quality := qualityParam (r.FormValue "quality")
      let format := formatParam (r.FormValue "format")
      match processor.ValidateImage s imageData with
      | (.error err, s1) =>
        (httpError ("Imagen inválida: " ++ errString err) StatusBadRequest, s1)
      | (.ok _, s1) =>
        match processor.CompressImage s1 imageData quality format with
        | (.error err, s2) =>
          (httpError ("Error comprimiendo imagen: " ++ errString err)
            StatusInternalServerError, s2)
        | (.ok compressedData, s2) =>
          let filename := "compressed_" ++ toString now ++ "." ++ format
          ({ status := StatusOK
             headers := [("Content-Type", "application/octet-stream"),
               ("Content-Disposition", "attachment; filename=" ++ filename),
               ("Content-Length", toString compressedData.length)]
             body := .bytes compressedData }, s2)

/-- Lines 236 to 239 of `compressBatch`: the key of the image at index `i`, its
filename or, when that is empty, `image_<i+1>.<format>`. -/
def entryFilename (i : Nat) (imgData : ImageData) (format : ImageFormat) : String :=
  if imgData.Filename = "" then "image_" ++ toString (i + 1) ++ "." ++ format
  else imgData.Filename

/-- The loop `for i, imgData := range req.Images` of `compressBatch`, from
index `i` on, with the map `files` filled so far: the response of the first
failure, or the map of all compressed images. -/
def processImages {S Err : Type} (processor : ImageProcessor S Err) (errString : Err → String)
    (quality : Int) (format : ImageFormat) :
    Nat → List ImageData → List (String × Bytes) → S →
      Except Response (List (String × Bytes)) × S
  | _, [], files, s => (.ok files, s)
  | i, imgData :: rest, files, s =>
    match processor.ValidateImage s imgData.Data with
    | (.error err, s1) =>
      (.error (httpError ("Imagen " ++ toString (i + 1) ++ " inválida: " ++ errString err)
        StatusBadRequest), s1)
    | (.ok _, s1) =>
      match processor.CompressImage s1 imgData.Data quality format with
      | (.error err, s2) =>
        (.error (httpError ("Error comprimiendo imagen " ++ toString (i + 1) ++ ": "
          ++ errString err) StatusInternalServerError), s2)
      | (.ok compressedData, s2) =>
        processImages processor errString quality format (i + 1) rest
          (mapInsert files (entryFilename i imgData format) compressedData) s2

/-- The handler `compressBatch` (POST /compress/batch) on the state `s` of the
services; `body` is what `json.NewDecoder(r.Body).Decode(&req)` gives, `none`
for an error.  The write of the archive to the client is taken to succeed. -/
def compressBatch {S Err : Type} (processor : ImageProcessor S Err)
    (zipService : ZipService S Err) (errString : Err → String) (maxBatchSize : Int)
    (now : Int) (body : Option BatchCompressionRequest) (s : S) : Response × S :=
  match body with
  | none => (httpError "Error decodificando JSON" StatusBadRequest, s)
  | some req =>
    if (req.Images.length : Int) > maxBatchSize then
      (httpError ("Máximo " ++ toString maxBatchSize ++ " imágenes por lote")
        StatusBadRequest, s)
    else
      match processImages processor errString req.Quality req.Format 0 req.Images [] s with
      | (.error response, s1) => (response, s1)
      | (.ok files, s1) =>
        match zipService.CreateZip s1 files with
        | (.error err, s2) =>
          (httpError ("Error creando ZIP: " ++ errString err) StatusInternalServerError, s2)
        | (.ok zipData, s2) =>
          let zipFilename := "compressed_batch_" ++ toString now ++ ".zip"
          ({ status := StatusOK
             headers := [("Content-Type", "application/zip"),
               ("Content-Disposition", "attachment; filename=" ++ zipFilename),
               ("Content-Length", toString zipData.length)]
             body := .bytes zipData }, s2)

/-! ## Services that record their calls -/

/-- A call of a method of the two interfaces, with its arguments. -/
inductive Call where
  | ValidateImage (imageData : Bytes)
  | CompressImage (imageData : Bytes) (quality : Int) (format : ImageFormat)
  | GetImageInfo (imageData : Bytes)
  | CreateZip (files : List (String × Bytes))
  deriving DecidableEq

/-- An image processor that answers by the given functions and whose state is
the list of the calls made so far, oldest first. -/
def recordingProcessor {Err : Type} (validate : Bytes → Except Err Unit)
    (compress : Bytes → Int → ImageFormat → Except Err Bytes)
    (info : Bytes → Except Err (Int × Int × ImageFormat)) :
    ImageProcessor (List Call) Err where
  CompressImage := fun log imageData quality format =>
    (compress imageData quality format, log ++ [Call.CompressImage imageData quality format])
  ValidateImage := fun log imageData => (validate imageData, log ++ [Call.ValidateImage imageData])
  GetImageInfo := fun log imageData => (info imageData, log ++ [Call.GetImageInfo imageData])

/-- A zip service that answers by the given function and records its calls. -/
def recordingZip {Err : Type} (createZip : List (String × Bytes) → Except Err Bytes) :
    ZipService (List Call) Err where
  CreateZip := fun log files => (createZip files, log ++ [Call.CreateZip files])

/-- The wiring of `main`: `services.NewImageProcessorService(maxImageSize)`
behind the interface, over the codec of the standard library, recording its
calls. -/
def serviceProcessor {Img E : Type} (codec : Codec Img E) (maxImageSize : Int) :
    ImageProcessor (List Call) (Error E) :=
  recordingProcessor (ValidateImage codec (NewImageProcessorService maxImageSize))
    (CompressImage codec) (GetImageInfo codec)

/-- The wiring of `main`: `services.NewZipService()` behind the interface, over
the zip writer of the standard library, recording its calls.  The map is
iterated in the order of its list of entries. -/
def serviceZip {W E : Type} (z : ZipWriter W E) : ZipService (List Call) (Error E) :=
  recordingZip (CreateZip z)

/-- The calls the loop of `compressBatch` makes for one image that passes. -/
def callsFor (quality : Int) (format : ImageFormat) (imgData : ImageData) : List Call :=
  [Call.ValidateImage imgData.Data, Call.CompressImage imgData.Data quality format]

/-- The keys of the images from index `i` on. -/
def entryFilenames (format : ImageFormat) : Nat → List ImageData → List String
  | _, [] => []
  | i, imgData :: rest => entryFilename i imgData format :: entryFilenames format (i + 1) rest

/-- The map after `files[k] = v` for each pair of `entries` in turn. -/
def insertAll (files entries : List (String × Bytes)) : List (String × Bytes) :=
  entries.foldl (fun m e => mapInsert m e.1 e.2) files

/-- The map `compressBatch` has built when every image passed with the outputs
`outs`: the output of each image put under its key, in the order of the images. -/
def batchFiles (format : ImageFormat) (images : List ImageData) (outs : List Bytes) :
    List (String × Bytes) :=
  insertAll [] ((entryFilenames format 0 images).zip outs)

/-! ## Lemmas on `strings.ReplaceAll` -/

/-- Replacing a one-character pattern by one character is a character map. -/
theorem replaceFrom_single (a b : Char) (s : List Char) :
    replaceFrom [a] [b] 0 s = s.map (fun c => if c = a then b else c) := by
  induction s with
  | nil => rfl
  | cons c cs ih =>
    by_cases h : c = a
    · subst h
      simp [replaceFrom, List.isPrefixOf, ih]
    · have h2 : ¬ a = c := fun e => h e.symm
      simp [replaceFrom, List.isPrefixOf, ih, h, h2]

theorem replaceAllChars_single (a b : Char) (s : List Char) :
    replaceAllChars s [a] [b] = s.map (fun c => if c = a then b else c) := by
  simp [replaceAllChars, replaceFrom_single]

theorem removeDots_nondot (c : Char) (t : List Char) (h : c ≠ '.') :
    replaceFrom ['.', '.'] [] 0 (c :: t) = c :: replaceFrom ['.', '.'] [] 0 t := by
  have h2 : ¬ '.' = c := fun e => h e.symm
  simp [replaceFrom, List.isPrefixOf, h2]

theorem removeDots_pair (t : List Char) :
    replaceFrom ['.', '.'] [] 0 ('.' :: '.' :: t) = replaceFrom ['.', '.'] [] 0 t := by
  simp [replaceFrom, List.isPrefixOf]

theorem removeDots_dot_nondot (d : Char) (t : List Char) (h : d ≠ '.') :
    replaceFrom ['.', '.'] [] 0 ('.' :: d :: t)
      = '.' :: d :: replaceFrom ['.', '.'] [] 0 t := by
  have h2 : ¬ '.' = d := fun e => h e.symm
  simp [replaceFrom, List.isPrefixOf, h2]

theorem removeDots_chain_aux (n : Nat) :
    ∀ s : List Char, s.length ≤ n →
      List.Chain' NoDotPair (replaceFrom ['.', '.'] [] 0 s) := by
  induction n with
  | zero =>
    intro s hs
    have : s = [] := List.eq_nil_of_length_eq_zero (Nat.le_zero.mp hs)
    subst this
    simp [replaceFrom]
  | succ n ih =>
    intro s hs
    have nondot : ∀ (c : Char) (t : List Char), c ≠ '.' → t.length ≤ n →
        List.Chain' NoDotPair (c :: replaceFrom ['.', '.'] [] 0 t) := by
      intro c t hc ht
      rw [List.chain'_cons']
      exact ⟨fun _ _ hp => hc hp.1, ih t ht⟩
    match s, hs with
    | [], _ => simp [replaceFrom]
    | c :: t, hs =>
      have ht : t.length ≤ n := by simpa using hs
      by_cases hc : c = '.'
      · subst hc
        match t, ht with
        | [], _ => simp [replaceFrom, List.isPrefixOf]
        | d :: u, hu =>
          have hu2 : u.length ≤ n := by
            have : u.length + 1 ≤ n := by simpa using hu
            omega
          by_cases hd : d = '.'
          · subst hd
            rw [removeDots_pair]
            exact ih u hu2
          · rw [removeDots_dot_nondot d u hd, List.chain'_cons']
            exact ⟨fun x hx hp => by simp at hx; exact hd (hx ▸ hp.2), nondot d u hd hu2⟩
      · rw [removeDots_nondot c t hc]
        exact nondot c t hc ht

/-- After `strings.ReplaceAll(s, "..", "")` no two neighbouring characters are
both dots. -/
theorem removeDots_chain (s : List Char) :
    List.Chain' NoDotPair (replaceAllChars s ['.', '.'] []) := by
  simp only [replaceAllChars, List.cons_ne_nil, if_false]
  exact removeDots_chain_aux s.length s (Nat.le_refl _)

theorem no_dotdot_of_chain (s : List Char) (h : List.Chain' NoDotPair s) :
    ¬ (['.', '.'] <:+: s) := by
  intro hin
  have := h.infix hin
  simp [NoDotPair] at this

theorem contains_singleton (s : String) (c : Char) (h : Contains s (String.singleton c)) :
    c ∈ s.data := by
  obtain ⟨p, q, hpq⟩ := h
  rw [← hpq]
  simp [String.singleton]

/-- Replacing the characters of a list `as` one after the other by a character
`p` outside `as` replaces exactly the characters of `as`. -/
theorem foldl_replace_chars (p : Char) (as : List Char) (hp : p ∉ as) :
    ∀ s : List Char,
      as.foldl (fun t a => t.map (fun c => if c = a then p else c)) s
        = s.map (fun c => if c ∈ as then p else c) := by
  induction as with
  | nil => intro s; simp
  | cons a as ih =>
    intro s
    have hp2 : p ∉ as := fun h => hp (List.mem_cons_of_mem _ h)
    rw [List.foldl_cons, ih hp2, List.map_map]
    apply List.map_congr_left
    intro c _
    by_cases hc : c = a
    · subst hc
      simp [hp2]
    · simp [hc]

theorem underscore_legal : '_' ∉ illegalChars := by decide

/-- The nine one-character replacements together are the map `placeholderFor`. -/
theorem replaceProblematic_data (baseName : String) :
    (replaceProblematic baseName).data
      = (replaceAllChars baseName.data ['.', '.'] []).map placeholderFor := by
  have h : (replaceProblematic baseName).data
      = illegalChars.foldl (fun t a => replaceAllChars t [a] ['_'])
          (replaceAllChars baseName.data ['.', '.'] []) := rfl
  rw [h]
  simp only [replaceAllChars_single]
  exact foldl_replace_chars '_' illegalChars underscore_legal _

theorem cleanBaseName_data (filename : String) :
    (cleanBaseName filename).data
      = (replaceAllChars (Base filename).data ['.', '.'] []).map placeholderFor :=
  replaceProblematic_data (Base filename)

theorem placeholderFor_legal (c : Char) : placeholderFor c ∉ illegalChars := by
  unfold placeholderFor
  by_cases h : c ∈ illegalChars
  · rw [if_pos h]; exact underscore_legal
  · rw [if_neg h]; exact h

theorem placeholderFor_dot (c : Char) (h : placeholderFor c = '.') : c = '.' := by
  unfold placeholderFor at h
  by_cases hc : c ∈ illegalChars
  · rw [if_pos hc] at h; exact absurd h (by decide)
  · rw [if_neg hc] at h; exact h

/-- After the replacements no two neighbouring characters are dots. -/
theorem replaceProblematic_chain (baseName : String) :
    List.Chain' NoDotPair (replaceProblematic baseName).data := by
  rw [replaceProblematic_data, List.chain'_map]
  refine (removeDots_chain _).imp ?_
  intro x y hxy hp
  exact hxy ⟨placeholderFor_dot x hp.1, placeholderFor_dot y hp.2⟩

/-- After the replacements none of the nine characters is left. -/
theorem replaceProblematic_legal (baseName : String) (c : Char) (hc : c ∈ illegalChars) :
    c ∉ (replaceProblematic baseName).data := by
  rw [replaceProblematic_data]
  intro hmem
  obtain ⟨x, _, hx⟩ := List.mem_map.mp hmem
  exact placeholderFor_legal x (hx ▸ hc)

theorem replaceProblematic_no_traversal (baseName : String) :
    ¬ Contains (replaceProblematic baseName) ".." ∧
      ¬ Contains (replaceProblematic baseName) "/" :=
  ⟨no_dotdot_of_chain _ (replaceProblematic_chain baseName),
    fun hc => replaceProblematic_legal baseName '/' (by decide) (contains_singleton _ '/' hc)⟩

theorem cleanBaseName_legal (filename : String) (c : Char) (hc : c ∈ illegalChars) :
    c ∉ (cleanBaseName filename).data :=
  replaceProblematic_legal (Base filename) c hc

/-- What `sanitizeFilename` returns is the default name or the cleaned base name. -/
theorem sanitizeFilename_cases (filename : String) :
    sanitizeFilename filename = "image" ∨ sanitizeFilename filename = cleanBaseName filename := by
  unfold sanitizeFilename
  by_cases h : cleanBaseName filename = "" ∨ cleanBaseName filename = "."
  · left; simp only [h, if_true]
  · right; simp only [h, if_false]

/-- The loop of `CreateZip` never looks at what `Create` does on a name that
contains `..` or `/`. -/
theorem addFiles_clean_names {W E : Type} (z z1 : ZipWriter W E) (hW : z.Write = z1.Write)
    (hC : ∀ (w : W) (name : String), ¬ Contains name ".." → ¬ Contains name "/" →
      z.Create w name = z1.Create w name)
    (hsan : ∀ filename, ¬ Contains (sanitizeFilename filename) ".." ∧
      ¬ Contains (sanitizeFilename filename) "/") :
    ∀ (files : List (String × Bytes)) (w : W), addFiles z files w = addFiles z1 files w := by
  intro files
  induction files with
  | nil => intro w; rfl
  | cons f rest ih =>
    intro w
    obtain ⟨filename, data⟩ := f
    simp only [addFiles]
    rw [hC w _ (hsan filename).1 (hsan filename).2, hW]
    cases z1.Create w (sanitizeFilename filename) with
    | error e => rfl
    | ok w1 =>
      simp only
      cases z1.Write w1 data with
      | error e => rfl
      | ok w2 => exact ih w2

/-! ## The claims -/

/-- C1: for every filename, the entry name `sanitizeFilename filename` that
`CreateZip` hands to the zip writer contains neither the substring `..` nor the
character `/` (so do the names for `../../etc/passwd`, `....`, `..././` and
`///`).  This holds whatever base name the replacements start from.  And
`CreateZip` never creates an entry under any other kind of name: two zip writers
that differ only in what `Create` does on names containing `..` or `/` give the
same result on every mapping. -/
theorem C1_entry_names_free_of_traversal :
    (∀ filename : String,
      ¬ Contains (sanitizeFilename filename) ".." ∧ ¬ Contains (sanitizeFilename filename) "/")
    ∧ (∀ baseName : String,
      ¬ Contains (replaceProblematic baseName) ".." ∧
        ¬ Contains (replaceProblematic baseName) "/")
    ∧ sanitizeFilename "../../etc/passwd" = "passwd"
    ∧ sanitizeFilename "...." = "image"
    ∧ sanitizeFilename "..././" = "image"
    ∧ sanitizeFilename "///" = "_"
    ∧ (∀ (W E : Type) (z z1 : ZipWriter W E) (files : List (String × Bytes)),
        z.NewWriter = z1.NewWriter → z.Write = z1.Write → z.Close = z1.Close →
        z.Bytes = z1.Bytes →
        (∀ (w : W) (name : String), ¬ Contains name ".." → ¬ Contains name "/" →
          z.Create w name = z1.Create w name) →
        CreateZip z files = CreateZip z1 files) := by
  have hsan : ∀ filename : String,
      ¬ Contains (sanitizeFilename filename) ".." ∧
        ¬ Contains (sanitizeFilename filename) "/" := by
    intro filename
    rcases sanitizeFilename_cases filename with h | h
    · rw [h]; exact ⟨by decide, by decide⟩
    · rw [h]; exact replaceProblematic_no_traversal (Base filename)
  refine ⟨hsan, replaceProblematic_no_traversal, by decide, by decide, by decide, by decide, ?_⟩
  intro W E z z1 files hN hW hCl hB hC
  unfold CreateZip
  rw [addFiles_clean_names z z1 hW hC hsan files, hN, hCl, hB]

/-- C2: for every filename, `sanitizeFilename` returns a string with none of the
nine characters `/ \ : * ? " < > |`; the result is the base name without its
`..` pairs in which each of the nine characters is replaced by `_` and every
other character is kept, or the default name when that is empty or a dot. -/
theorem C2_no_illegal_characters (filename : String) :
    (∀ c ∈ ['/', '\\', ':', '*', '?', '"', '<', '>', '|'],
      c ∉ (sanitizeFilename filename).data)
    ∧ illegalChars = ['/', '\\', ':', '*', '?', '"', '<', '>', '|']
    ∧ (∀ c : Char, placeholderFor c = if c ∈ illegalChars then '_' else c)
    ∧ sanitizeFilename filename =
        (let replaced : String :=
          ⟨(ReplaceAll (Base filename) ".." "").data.map placeholderFor⟩
         if replaced = "" ∨ replaced = "." then "image" else replaced) := by
  refine ⟨?_, rfl, fun _ => rfl, ?_⟩
  · intro c hc
    rcases sanitizeFilename_cases filename with h | h
    · rw [h]
      revert c
      decide
    · rw [h]
      exact cleanBaseName_legal filename c hc
  · have h : cleanBaseName filename
        = ⟨(ReplaceAll (Base filename) ".." "").data.map placeholderFor⟩ := by
      have := cleanBaseName_data filename
      cases hcb : cleanBaseName filename with
      | mk d =>
        rw [hcb] at this
        simp only at this
        rw [this]
        rfl
    unfold sanitizeFilename
    rw [h]

/-- C3: for every filename, `sanitizeFilename` returns a string that is neither
empty nor `.`; whenever the cleaned base name is empty or `.`, the result is the
default name `image`, as it is for the inputs (empty), `.`, `..`, `...` and
`dir/..`, whose cleaned base names are `.`, `.`, (empty), `.` and (empty). -/
theorem C3_default_name :
    (∀ filename : String,
      sanitizeFilename filename ≠ "" ∧ sanitizeFilename filename ≠ "."
      ∧ (cleanBaseName filename = "" ∨ cleanBaseName filename = "." →
          sanitizeFilename filename = "image"))
    ∧ (cleanBaseName "" = "." ∧ sanitizeFilename "" = "image")
    ∧ (cleanBaseName "." = "." ∧ sanitizeFilename "." = "image")
    ∧ (cleanBaseName ".." = "" ∧ sanitizeFilename ".." = "image")
    ∧ (cleanBaseName "..." = "." ∧ sanitizeFilename "..." = "image")
    ∧ (cleanBaseName "dir/.." = "" ∧ sanitizeFilename "dir/.." = "image") := by
  refine ⟨?_, by decide, by decide, by decide, by decide, by decide⟩
  intro filename
  unfold sanitizeFilename
  by_cases h : cleanBaseName filename = "" ∨ cleanBaseName filename = "."
  · rw [if_pos h]
    exact ⟨by decide, by decide, fun _ => rfl⟩
  · rw [if_neg h]
    exact ⟨fun e => h (Or.inl e), fun e => h (Or.inr e), fun hh => absurd hh h⟩

/-! ### `ValidateImage`, `CompressImage`, `GetImageInfo` -/

/-- C4: `ValidateImage` applies its checks in order and returns the first that
fires: `ErrEmptyImageData` for empty data; otherwise `ErrImageTooLarge` when the
length exceeds the maximum; otherwise `ErrInvalidImageData` when decoding fails;
otherwise no error.  The first two answers are the same for every decoder (the
decoder is not consulted), and the call succeeds iff the data is non-empty,
within the size ceiling and decodable. -/
theorem C4_ValidateImage_check_order {Img E : Type} (codec : Codec Img E)
    (s : ImageProcessorService) (imageData : Bytes) :
    (imageData = [] →
      ∀ codec1 : Codec Img E, ValidateImage codec1 s imageData = .error .ErrEmptyImageData)
    ∧ (imageData ≠ [] → (imageData.length : Int) > s.maxImageSize →
      ∀ codec1 : Codec Img E, ValidateImage codec1 s imageData = .error .ErrImageTooLarge)
    ∧ (imageData ≠ [] → (imageData.length : Int) ≤ s.maxImageSize →
      (∃ err, codec.Decode imageData = .error err) →
      ValidateImage codec s imageData = .error .ErrInvalidImageData)
    ∧ (imageData ≠ [] → (imageData.length : Int) ≤ s.maxImageSize →
      (∃ r, codec.Decode imageData = .ok r) →
      ValidateImage codec s imageData = .ok ())
    ∧ (ValidateImage codec s imageData = .ok () ↔
      imageData ≠ [] ∧ (imageData.length : Int) ≤ s.maxImageSize ∧
        ∃ r, codec.Decode imageData = .ok r) := by
  have hlen : imageData ≠ [] → ¬ imageData.length = 0 :=
    fun h e => h (List.eq_nil_of_length_eq_zero e)
  refine ⟨?_, ?_, ?_, ?_, ?_⟩
  · intro h codec1
    subst h
    simp [ValidateImage]
  · intro hne hgt codec1
    simp [ValidateImage, hlen hne, hgt]
  · rintro hne hle ⟨err, herr⟩
    simp [ValidateImage, hlen hne, not_lt.mpr hle, herr]
  · rintro hne hle ⟨r, hr⟩
    simp [ValidateImage, hlen hne, not_lt.mpr hle, hr]
  · unfold ValidateImage
    by_cases h0 : imageData.length = 0
    · have : imageData = [] := List.eq_nil_of_length_eq_zero h0
      simp [this]
    · have hne : imageData ≠ [] := fun e => h0 (by rw [e]; rfl)
      by_cases hgt : (imageData.length : Int) > s.maxImageSize
      · have : ¬ (imageData.length : Int) ≤ s.maxImageSize := not_le.mpr hgt
        simp [h0, hgt, this]
      · have hle : (imageData.length : Int) ≤ s.maxImageSize := not_lt.mp hgt
        cases hd : codec.Decode imageData with
        | error err => simp [h0, hgt, hne]
        | ok r => simp [h0, hgt, hne, hle]

/-- Witness of C4 on the small codec: empty data, a decodable image above a
ceiling of 2 bytes, undecodable bytes and a decodable image under the default
ceiling of 32 MB give the four answers in order. -/
theorem C4_ValidateImage_witness :
    ValidateImage toyCodec (NewImageProcessorService 33554432) [] = .error .ErrEmptyImageData
    ∧ toyCodec.Decode [1, 100, 50] = .ok ((100, 50), "png")
    ∧ ValidateImage toyCodec (NewImageProcessorService 2) [1, 100, 50] = .error .ErrImageTooLarge
    ∧ ValidateImage toyCodec (NewImageProcessorService 33554432) [7, 7]
        = .error .ErrInvalidImageData
    ∧ ValidateImage toyCodec (NewImageProcessorService 33554432) [1, 100, 50] = .ok ()
    ∧ (ValidateImage toyCodec (NewImageProcessorService 33554432) [1, 100, 50] = .ok () ↔
        ([1, 100, 50] : Bytes) ≠ [] ∧ ((([1, 100, 50] : Bytes).length : Int) ≤ 33554432) ∧
          ∃ r, toyCodec.Decode [1, 100, 50] = .ok r) :=
  ⟨by decide, by decide, by decide, by decide, by decide,
    (C4_ValidateImage_check_order toyCodec (NewImageProcessorService 33554432)
      [1, 100, 50]).2.2.2.2⟩

/-- C5: for non-empty data and a quality below 1 or above 100, `CompressImage`
returns `ErrInvalidQuality` (and so no bytes) for every format and every codec:
neither the decoder nor an encoder has a say.  For a quality from 1 to 100 it
never returns `ErrInvalidQuality`, whatever the data, the format and the codec. -/
theorem C5_quality_out_of_range (Img E : Type) (imageData : Bytes) (quality : Int) :
    (imageData ≠ [] → (quality < 1 ∨ quality > 100) →
      ∀ (codec : Codec Img E) (format : ImageFormat),
        CompressImage codec imageData quality format = .error .ErrInvalidQuality)
    ∧ (1 ≤ quality → quality ≤ 100 →
      ∀ (codec : Codec Img E) (format : ImageFormat),
        CompressImage codec imageData quality format ≠ .error .ErrInvalidQuality) := by
  constructor
  · intro hne hq codec format
    have h0 : ¬ imageData.length = 0 := fun e => hne (List.eq_nil_of_length_eq_zero e)
    simp [CompressImage, h0, hq]
  · intro h1 h100 codec format
    have hq : ¬ (quality < 1 ∨ quality > 100) := by omega
    unfold CompressImage
    by_cases h0 : imageData.length = 0
    · simp [h0]
    · rw [if_neg h0, if_neg hq]
      cases codec.Decode imageData with
      | error err => simp
      | ok r =>
        obtain ⟨img, f⟩ := r
        simp only
        cases encodeAs codec img quality format with
        | error err => simp
        | ok buf => simp

/-- Witness of C5: quality 0 and quality 101 are refused on a decodable image
and on undecodable bytes alike, by the small codec and by a codec that rejects
everything; quality 1 and quality 100 are not. -/
theorem C5_quality_witness :
    CompressImage toyCodec [1, 100, 50] 0 JPEG = .error .ErrInvalidQuality
    ∧ CompressImage toyCodec [7, 7] 101 PNG = .error .ErrInvalidQuality
    ∧ CompressImage rejectingCodec [1, 100, 50] (-5) WEBP = .error .ErrInvalidQuality
    ∧ CompressImage toyCodec [1, 100, 50] 1 JPEG = .ok [0, 100, 50, 1]
    ∧ CompressImage toyCodec [1, 100, 50] 100 JPEG = .ok [0, 100, 50, 100]
    ∧ CompressImage toyCodec [7, 7] 50 JPEG
        = .error (.wrapf "error decodificando imagen: " "unknown format")
    ∧ (∀ (codec : Codec (Nat × Nat) String) (format : ImageFormat),
        CompressImage codec [1, 100, 50] 101 format = .error .ErrInvalidQuality) :=
  ⟨by decide, by decide, by decide, by decide, by decide, by decide,
    (C5_quality_out_of_range (Nat × Nat) String [1, 100, 50] 101).1 (by decide) (by decide)⟩

/-- C6: with format WEBP, and with any format other than `png` (unknown strings
and the empty string included), `CompressImage` returns exactly what it returns
with format JPEG on the same input and quality; and for no format at all does it
fail with `ErrUnsupportedFormat`. -/
theorem C6_non_png_formats_encode_as_jpeg {Img E : Type} (codec : Codec Img E)
    (imageData : Bytes) (quality : Int) (format : ImageFormat) (hfmt : format ≠ "png") :
    CompressImage codec imageData quality format = CompressImage codec imageData quality JPEG
    ∧ CompressImage codec imageData quality WEBP = CompressImage codec imageData quality JPEG
    ∧ ∀ anyFormat : ImageFormat,
        CompressImage codec imageData quality anyFormat ≠ .error .ErrUnsupportedFormat := by
  have henc : ∀ (img : Img) (f : ImageFormat), f ≠ "png" →
      encodeAs codec img quality f = codec.jpegEncode img quality := by
    intro img f hf
    have hf2 : ¬ f = PNG := hf
    unfold encodeAs
    by_cases h1 : f = JPEG
    · rw [if_pos h1]
    · rw [if_neg h1, if_neg hf2]
      by_cases h3 : f = WEBP
      · rw [if_pos h3]
      · rw [if_neg h3]
  have hsame : ∀ f : ImageFormat, f ≠ "png" →
      CompressImage codec imageData quality f = CompressImage codec imageData quality JPEG := by
    intro f hf
    unfold CompressImage
    congr 2
    cases codec.Decode imageData with
    | error err => rfl
    | ok r =>
      obtain ⟨img, g⟩ := r
      simp only [henc img f hf, henc img JPEG (by decide)]
  refine ⟨hsame format hfmt, hsame WEBP (by decide), ?_⟩
  intro anyFormat
  unfold CompressImage
  by_cases h0 : imageData.length = 0
  · simp [h0]
  · rw [if_neg h0]
    by_cases hq : quality < 1 ∨ quality > 100
    · simp [hq]
    · rw [if_neg hq]
      cases codec.Decode imageData with
      | error err => simp
      | ok r =>
        obtain ⟨img, g⟩ := r
        simp only
        cases encodeAs codec img quality anyFormat with
        | error err => simp
        | ok buf => simp

/-- Witness of C6 on the small codec: the formats `webp`, `gif` and the empty
string give the bytes that `jpeg` gives. -/
theorem C6_non_png_formats_witness :
    ("gif" : ImageFormat) ≠ "png"
    ∧ CompressImage toyCodec [1, 100, 50] 80 "gif" = .ok [0, 100, 50, 80]
    ∧ CompressImage toyCodec [1, 100, 50] 80 "" = .ok [0, 100, 50, 80]
    ∧ (CompressImage toyCodec [1, 100, 50] 80 "gif" = CompressImage toyCodec [1, 100, 50] 80 JPEG
      ∧ CompressImage toyCodec [1, 100, 50] 80 WEBP = CompressImage toyCodec [1, 100, 50] 80 JPEG
      ∧ ∀ anyFormat : ImageFormat,
          CompressImage toyCodec [1, 100, 50] 80 anyFormat ≠ .error .ErrUnsupportedFormat) :=
  ⟨by decide, by decide, by decide,
    C6_non_png_formats_encode_as_jpeg toyCodec [1, 100, 50] 80 "gif" (by decide)⟩

/-- C7: PNG encoding ignores the quality: for qualities `q1` and `q2` both from 1
to 100, `CompressImage` with format PNG returns the same result (the same bytes
or the same failure) on the same data. -/
theorem C7_png_ignores_quality {Img E : Type} (codec : Codec Img E) (imageData : Bytes)
    (q1 q2 : Int) (h1 : 1 ≤ q1 ∧ q1 ≤ 100) (h2 : 1 ≤ q2 ∧ q2 ≤ 100) :
    CompressImage codec imageData q1 PNG = CompressImage codec imageData q2 PNG := by
  have hq1 : ¬ (q1 < 1 ∨ q1 > 100) := by omega
  have hq2 : ¬ (q2 < 1 ∨ q2 > 100) := by omega
  have henc : ∀ (img : Img) (q : Int), encodeAs codec img q PNG = codec.pngEncode img := by
    intro img q
    unfold encodeAs
    rw [if_neg (by decide), if_pos rfl]
  unfold CompressImage
  rw [if_neg hq1, if_neg hq2]
  simp only [henc]

/-- Witness of C7 on the small codec, whose "jpeg" bytes do depend on the
quality while its "png" bytes do not. -/
theorem C7_png_ignores_quality_witness :
    CompressImage toyCodec [1, 100, 50] 10 PNG = .ok [1, 100, 50]
    ∧ CompressImage toyCodec [1, 100, 50] 90 PNG = .ok [1, 100, 50]
    ∧ CompressImage toyCodec [1, 100, 50] 10 JPEG ≠ CompressImage toyCodec [1, 100, 50] 90 JPEG
    ∧ CompressImage toyCodec [1, 100, 50] 10 PNG = CompressImage toyCodec [1, 100, 50] 90 PNG :=
  ⟨by decide, by decide, by decide,
    C7_png_ignores_quality toyCodec [1, 100, 50] 10 90 (by decide) (by decide)⟩

/-- What `GetImageInfo` returns on data the decoder accepts. -/
theorem GetImageInfo_of_decode {Img E : Type} (codec : Codec Img E) (imageData : Bytes)
    (img : Img) (formatStr : String) (hne : imageData ≠ [])
    (hdec : codec.Decode imageData = .ok (img, formatStr)) :
    GetImageInfo codec imageData
      = .ok ((codec.Bounds img).Dx, (codec.Bounds img).Dy, convertFormat formatStr) := by
  have h0 : ¬ imageData.length = 0 := fun e => hne (List.eq_nil_of_length_eq_zero e)
  simp [GetImageInfo, h0, hdec]

/-- What `CompressImage` returns on data the decoder accepts, for a quality in
range. -/
theorem CompressImage_of_decode {Img E : Type} (codec : Codec Img E) (imageData : Bytes)
    (quality : Int) (format : ImageFormat) (img : Img) (formatStr : String) (out : Bytes)
    (hne : imageData ≠ []) (hq : 1 ≤ quality ∧ quality ≤ 100)
    (hdec : codec.Decode imageData = .ok (img, formatStr))
    (henc : encodeAs codec img quality format = .ok out) :
    CompressImage codec imageData quality format = .ok out := by
  have h0 : ¬ imageData.length = 0 := fun e => hne (List.eq_nil_of_length_eq_zero e)
  have hq2 : ¬ (quality < 1 ∨ quality > 100) := by omega
  simp [CompressImage, h0, hq2, hdec, henc]

theorem encodeAs_png {Img E : Type} (codec : Codec Img E) (img : Img) (quality : Int) :
    encodeAs codec img quality PNG = codec.pngEncode img := by
  unfold encodeAs
  rw [if_neg (by decide), if_pos rfl]

theorem encodeAs_non_png {Img E : Type} (codec : Codec Img E) (img : Img) (quality : Int)
    (format : ImageFormat) (hf : format ≠ "png") :
    encodeAs codec img quality format = codec.jpegEncode img quality := by
  have hf2 : ¬ format = PNG := hf
  unfold encodeAs
  by_cases h1 : format = JPEG
  · rw [if_pos h1]
  · rw [if_neg h1, if_neg hf2]
    by_cases h3 : format = WEBP
    · rw [if_pos h3]
    · rw [if_neg h3]

/-- What `CompressImage` returns on data the decoder accepts, for a quality in
range: the answer of the encoder the format selects, an error wrapped. -/
theorem CompressImage_eq_encodeAs {Img E : Type} (codec : Codec Img E) (imageData : Bytes)
    (quality : Int) (format : ImageFormat) (img : Img) (formatStr : String)
    (hne : imageData ≠ []) (hq : 1 ≤ quality ∧ quality ≤ 100)
    (hdec : codec.Decode imageData = .ok (img, formatStr)) :
    CompressImage codec imageData quality format
      = match encodeAs codec img quality format with
        | .error err => .error (.wrapf "error codificando imagen: " err)
        | .ok buf => .ok buf := by
  have h0 : ¬ imageData.length = 0 := fun e => hne (List.eq_nil_of_length_eq_zero e)
  have hq2 : ¬ (quality < 1 ∨ quality > 100) := by omega
  simp [CompressImage, h0, hq2, hdec]

/-- When `GetImageInfo` succeeds, the data is not empty and the decoder accepts
it under a format name that is reported as the format returned. -/
theorem decode_of_GetImageInfo {Img E : Type} (codec : Codec Img E) (data : Bytes)
    (width height : Int) (reported : ImageFormat)
    (h : GetImageInfo codec data = .ok (width, height, reported)) :
    data ≠ [] ∧ ∃ img1 f, codec.Decode data = .ok (img1, f) ∧ convertFormat f = reported := by
  unfold GetImageInfo at h
  by_cases h0 : data.length = 0
  · rw [if_pos h0] at h
    exact absurd h (by simp)
  · rw [if_neg h0] at h
    refine ⟨fun e => h0 (by rw [e]; rfl), ?_⟩
    cases hd : codec.Decode data with
    | error err =>
      rw [hd] at h
      exact absurd h (by simp)
    | ok r =>
      obtain ⟨img1, f⟩ := r
      rw [hd] at h
      simp only at h
      have h3 := Except.ok.inj h
      exact ⟨img1, f, rfl, congrArg (fun t => t.2.2) h3⟩

/-- The round trip through the encoder the format selects: it reports `reported`
exactly when that encoder succeeds on the decoded image with a non-empty output
that the decoder accepts under a name reported as `reported`. -/
theorem roundTrip_iff_encodeAs {Img E : Type} (codec : Codec Img E) (imageData : Bytes)
    (quality : Int) (format reported : ImageFormat) (img : Img) (formatStr : String)
    (hne : imageData ≠ []) (hq : 1 ≤ quality ∧ quality ≤ 100)
    (hdec : codec.Decode imageData = .ok (img, formatStr)) :
    RoundTrip codec imageData quality format reported
      ↔ ∃ out img1 f, encodeAs codec img quality format = .ok out ∧ out ≠ [] ∧
          codec.Decode out = .ok (img1, f) ∧ convertFormat f = reported := by
  constructor
  · rintro ⟨out, hout, width, height, hinfo⟩
    rw [CompressImage_eq_encodeAs codec imageData quality format img formatStr hne hq hdec]
      at hout
    obtain ⟨hone, img1, f, hd, hf⟩ := decode_of_GetImageInfo codec out width height reported hinfo
    cases henc : encodeAs codec img quality format with
    | error err =>
      rw [henc] at hout
      exact absurd hout (by simp)
    | ok buf =>
      rw [henc] at hout
      have hb : buf = out := Except.ok.inj hout
      exact ⟨out, img1, f, by rw [hb], hone, hd, hf⟩
  · rintro ⟨out, img1, f, henc, hone, hd, hf⟩
    refine ⟨out, ?_, (codec.Bounds img1).Dx, (codec.Bounds img1).Dy, ?_⟩
    · exact CompressImage_of_decode codec imageData quality format img formatStr out hne hq
        hdec henc
    · rw [GetImageInfo_of_decode codec out img1 f hone hd, hf]

/-- C8, as the code has it: for non-empty data the decoder accepts and a quality
from 1 to 100, the round trip (`CompressImage` succeeds and `GetImageInfo` on its
output succeeds) of a PNG request is that of `png.Encode` and the round trip of
a request for any other format, JPEG and WEBP included, is that of `jpeg.Encode`
at that quality: it reports a format exactly when the encoder succeeds on the
decoded image with a non-empty output that the decoder accepts under a name
reported as that format.  So a PNG request reports PNG whenever `png.Encode`
gives an output that decodes as `png`, a JPEG request reports JPEG whenever
`jpeg.Encode` gives an output that decodes as `jpeg`, and a WEBP request reports
what a JPEG request reports: JPEG then, and not WEBP. -/
theorem C8_round_trip_reports_encoder_format {Img E : Type} (codec : Codec Img E)
    (imageData : Bytes) (quality : Int) (img : Img) (formatStr : String)
    (hne : imageData ≠ []) (hdec : codec.Decode imageData = .ok (img, formatStr))
    (hq : 1 ≤ quality ∧ quality ≤ 100) :
    (∀ reported : ImageFormat, RoundTrip codec imageData quality PNG reported
      ↔ ∃ out img1 f, codec.pngEncode img = .ok out ∧ out ≠ [] ∧
          codec.Decode out = .ok (img1, f) ∧ convertFormat f = reported)
    ∧ (∀ format reported : ImageFormat, format ≠ "png" →
      (RoundTrip codec imageData quality format reported
        ↔ ∃ out img1 f, codec.jpegEncode img quality = .ok out ∧ out ≠ [] ∧
            codec.Decode out = .ok (img1, f) ∧ convertFormat f = reported))
    ∧ (∀ (out : Bytes) (img1 : Img), codec.pngEncode img = .ok out → out ≠ [] →
      codec.Decode out = .ok (img1, "png") → RoundTrip codec imageData quality PNG PNG)
    ∧ (∀ (out : Bytes) (img1 : Img), codec.jpegEncode img quality = .ok out → out ≠ [] →
      codec.Decode out = .ok (img1, "jpeg") →
        RoundTrip codec imageData quality JPEG JPEG
        ∧ RoundTrip codec imageData quality WEBP JPEG
        ∧ ¬ RoundTrip codec imageData quality WEBP WEBP)
    ∧ (∀ reported : ImageFormat, RoundTrip codec imageData quality WEBP reported
      ↔ RoundTrip codec imageData quality JPEG reported) := by
  have hpng : ∀ reported : ImageFormat, RoundTrip codec imageData quality PNG reported
      ↔ ∃ out img1 f, codec.pngEncode img = .ok out ∧ out ≠ [] ∧
          codec.Decode out = .ok (img1, f) ∧ convertFormat f = reported := by
    intro reported
    rw [roundTrip_iff_encodeAs codec imageData quality PNG reported img formatStr hne hq hdec,
      encodeAs_png]
  have hjpeg : ∀ format reported : ImageFormat, format ≠ "png" →
      (RoundTrip codec imageData quality format reported
        ↔ ∃ out img1 f, codec.jpegEncode img quality = .ok out ∧ out ≠ [] ∧
            codec.Decode out = .ok (img1, f) ∧ convertFormat f = reported) := by
    intro format reported hf
    rw [roundTrip_iff_encodeAs codec imageData quality format reported img formatStr hne hq
      hdec, encodeAs_non_png codec img quality format hf]
  refine ⟨hpng, hjpeg, ?_, ?_, ?_⟩
  · intro out img1 henc hone hd
    exact (hpng PNG).mpr ⟨out, img1, "png", henc, hone, hd, by decide⟩
  · intro out img1 henc hone hd
    refine ⟨(hjpeg JPEG JPEG (by decide)).mpr ⟨out, img1, "jpeg", henc, hone, hd, by decide⟩,
      (hjpeg WEBP JPEG (by decide)).mpr ⟨out, img1, "jpeg", henc, hone, hd, by decide⟩, ?_⟩
    intro hw
    obtain ⟨out2, img2, f, henc2, _, hd2, hf⟩ := (hjpeg WEBP WEBP (by decide)).mp hw
    rw [henc] at henc2
    have hout : out = out2 := Except.ok.inj henc2
    subst hout
    rw [hd] at hd2
    have hf2 : "jpeg" = f := congrArg (fun t => t.2) (Except.ok.inj hd2)
    subst hf2
    exact absurd hf (by decide)
  · intro reported
    rw [hjpeg WEBP reported (by decide), hjpeg JPEG reported (by decide)]

/-- Witness of C8 on the small codec and its 100 by 50 "png", and on the codec
without a "jpeg" encoder, where a PNG request still makes the round trip. -/
theorem C8_round_trip_witness :
    toyCodec.Decode [1, 100, 50] = .ok ((100, 50), "png")
    ∧ CompressImage toyCodec [1, 100, 50] 80 PNG = .ok [1, 100, 50]
    ∧ GetImageInfo toyCodec [1, 100, 50] = .ok (100, 50, PNG)
    ∧ CompressImage toyCodec [1, 100, 50] 80 JPEG = .ok [0, 100, 50, 80]
    ∧ GetImageInfo toyCodec [0, 100, 50, 80] = .ok (100, 50, JPEG)
    ∧ RoundTrip toyCodec [1, 100, 50] 80 PNG PNG
    ∧ (RoundTrip toyCodec [1, 100, 50] 80 JPEG JPEG
      ∧ RoundTrip toyCodec [1, 100, 50] 80 WEBP JPEG
      ∧ ¬ RoundTrip toyCodec [1, 100, 50] 80 WEBP WEBP)
    ∧ CompressImage pngOnlyCodec [1, 100, 50] 80 JPEG
        = .error (.wrapf "error codificando imagen: " "image is too large to encode")
    ∧ RoundTrip pngOnlyCodec [1, 100, 50] 80 PNG PNG :=
  ⟨by decide, by decide, by decide, by decide, by decide,
    (C8_round_trip_reports_encoder_format toyCodec [1, 100, 50] 80 (100, 50) "png"
      (by decide) (by decide) (by decide)).2.2.1 [1, 100, 50] (100, 50)
      (by decide) (by decide) (by decide),
    (C8_round_trip_reports_encoder_format toyCodec [1, 100, 50] 80 (100, 50) "png"
      (by decide) (by decide) (by decide)).2.2.2.1 [0, 100, 50, 80] (100, 50)
      (by decide) (by decide) (by decide),
    by decide,
    (C8_round_trip_reports_encoder_format pngOnlyCodec [1, 100, 50] 80 (100, 50) "png"
      (by decide) (by decide) (by decide)).2.2.1 [1, 100, 50] (100, 50)
      (by decide) (by decide) (by decide)⟩

/-- Counterexample to C8 as stated: on the small codec, whose encoders succeed
on the image with outputs that decode under their own names, the valid "png"
`[1, 100, 50]` compressed at quality 80 with format WEBP gives "jpeg" bytes,
`GetImageInfo` reports JPEG on them, and so the round trip does not report the
requested format. -/
theorem C8_webp_reports_jpeg_counterexample :
    toyCodec.Decode [1, 100, 50] = .ok ((100, 50), "png")
    ∧ toyCodec.jpegEncode (100, 50) 80 = .ok [0, 100, 50, 80]
    ∧ toyCodec.Decode [0, 100, 50, 80] = .ok ((100, 50), "jpeg")
    ∧ CompressImage toyCodec [1, 100, 50] 80 WEBP = .ok [0, 100, 50, 80]
    ∧ GetImageInfo toyCodec [0, 100, 50, 80] = .ok (100, 50, JPEG)
    ∧ ¬ RoundTrip toyCodec [1, 100, 50] 80 WEBP WEBP := by
  refine ⟨by decide, by decide, by decide, by decide, by decide, ?_⟩
  rintro ⟨out, hout, width, height, hinfo⟩
  have h1 : CompressImage toyCodec [1, 100, 50] 80 WEBP = .ok [0, 100, 50, 80] := by decide
  rw [h1] at hout
  have hEq : [0, 100, 50, 80] = out := Except.ok.inj hout
  subst hEq
  have h2 : GetImageInfo toyCodec [0, 100, 50, 80] = .ok (100, 50, JPEG) := by decide
  rw [h2] at hinfo
  have h4 : JPEG = WEBP := congrArg (fun t => t.2.2) (Except.ok.inj hinfo)
  exact absurd h4 (by decide)

theorem wrapInt64_of_range (x : Int) (hlo : -(2 ^ 63) ≤ x) (hhi : x < 2 ^ 63) :
    wrapInt64 x = x := by
  unfold wrapInt64
  norm_num at hlo hhi ⊢
  omega

/-- C9: for non-empty data that the decoder accepts, `GetImageInfo` returns no
error, the width and height of the decoded bounds (`Dx` and `Dy`, which are
`Max.X - Min.X` and `Max.Y - Min.Y` whenever these differences fit a Go `int`)
and the format the decoder detected (`jpeg` as JPEG, `png` as PNG); no requested
format enters the call.  Bounds from (0, 0) to (100, 50) give width 100 and
height 50. -/
theorem C9_GetImageInfo_reports_decoded {Img E : Type} (codec : Codec Img E)
    (imageData : Bytes) (img : Img) (formatStr : String) (hne : imageData ≠ [])
    (hdec : codec.Decode imageData = .ok (img, formatStr)) :
    GetImageInfo codec imageData
      = .ok ((codec.Bounds img).Dx, (codec.Bounds img).Dy, convertFormat formatStr)
    ∧ (-(2 ^ 63) ≤ (codec.Bounds img).Max.X - (codec.Bounds img).Min.X →
        (codec.Bounds img).Max.X - (codec.Bounds img).Min.X < 2 ^ 63 →
        (codec.Bounds img).Dx = (codec.Bounds img).Max.X - (codec.Bounds img).Min.X)
    ∧ (-(2 ^ 63) ≤ (codec.Bounds img).Max.Y - (codec.Bounds img).Min.Y →
        (codec.Bounds img).Max.Y - (codec.Bounds img).Min.Y < 2 ^ 63 →
        (codec.Bounds img).Dy = (codec.Bounds img).Max.Y - (codec.Bounds img).Min.Y)
    ∧ convertFormat "jpeg" = JPEG
    ∧ convertFormat "png" = PNG
    ∧ (codec.Bounds img = ⟨⟨0, 0⟩, ⟨100, 50⟩⟩ →
        GetImageInfo codec imageData = .ok (100, 50, convertFormat formatStr)) := by
  have hinfo := GetImageInfo_of_decode codec imageData img formatStr hne hdec
  refine ⟨hinfo, ?_, ?_, by decide, by decide, ?_⟩
  · intro hlo hhi
    exact wrapInt64_of_range _ hlo hhi
  · intro hlo hhi
    exact wrapInt64_of_range _ hlo hhi
  · intro hb
    rw [hinfo, hb]
    rfl

/-- Witness of C9 on the small codec: its 100 by 50 "png" is reported as 100 by
50, PNG. -/
theorem C9_GetImageInfo_witness :
    ([1, 100, 50] : Bytes) ≠ []
    ∧ toyCodec.Decode [1, 100, 50] = .ok ((100, 50), "png")
    ∧ GetImageInfo toyCodec [1, 100, 50] = .ok (100, 50, PNG)
    ∧ GetImageInfo toyCodec [1, 100, 50]
        = .ok ((toyCodec.Bounds (100, 50)).Dx, (toyCodec.Bounds (100, 50)).Dy,
            convertFormat "png") :=
  ⟨by decide, by decide, by decide,
    (C9_GetImageInfo_reports_decoded toyCodec [1, 100, 50] (100, 50) "png"
      (by decide) (by decide)).1⟩

/-! ### `CreateZip` -/

/-- An error of the loop of `CreateZip` wraps an error of the zip writer. -/
theorem addFiles_error_wrapf {W E : Type} (z : ZipWriter W E) :
    ∀ (files : List (String × Bytes)) (w : W) (e : Error E),
      addFiles z files w = .error e → ∃ msg err, e = .wrapf msg err := by
  intro files
  induction files with
  | nil => intro w e h; simp [addFiles] at h
  | cons f rest ih =>
    intro w e h
    obtain ⟨filename, data⟩ := f
    simp only [addFiles] at h
    cases hc : z.Create w (sanitizeFilename filename) with
    | error err =>
      rw [hc] at h
      exact ⟨_, err, (Except.error.inj h).symm⟩
    | ok w1 =>
      rw [hc] at h
      simp only at h
      cases hw : z.Write w1 data with
      | error err =>
        rw [hw] at h
        exact ⟨_, err, (Except.error.inj h).symm⟩
      | ok w2 =>
        rw [hw] at h
        exact ih w2 e h

/-- C10: `CreateZip` on the empty mapping fails with the error "no hay archivos
para comprimir" (and so returns no bytes); it fails with that error only for the
empty mapping: a non-empty mapping passes the check and goes on to the loop, the
closing of the writer and the buffer's bytes. -/
theorem C10_CreateZip_empty_mapping {W E : Type} (z : ZipWriter W E) :
    CreateZip z [] = .error (.errorf "no hay archivos para comprimir")
    ∧ (∀ files : List (String × Bytes),
        CreateZip z files = .error (.errorf "no hay archivos para comprimir") ↔ files = [])
    ∧ (∀ files : List (String × Bytes), files ≠ [] →
        CreateZip z files =
          match addFiles z files z.NewWriter with
          | .error e => .error e
          | .ok w =>
            match z.Close w with
            | .error err => .error (.wrapf "error cerrando ZIP: " err)
            | .ok w1 => .ok (z.Bytes w1)) := by
  have hstep : ∀ files : List (String × Bytes), files ≠ [] →
      CreateZip z files =
        match addFiles z files z.NewWriter with
        | .error e => .error e
        | .ok w =>
          match z.Close w with
          | .error err => .error (.wrapf "error cerrando ZIP: " err)
          | .ok w1 => .ok (z.Bytes w1) := by
    intro files hne
    have h0 : ¬ files.length = 0 := fun e => hne (List.eq_nil_of_length_eq_zero e)
    unfold CreateZip
    rw [if_neg h0]
  refine ⟨rfl, ?_, hstep⟩
  intro files
  constructor
  · intro h
    by_contra hne
    rw [hstep files hne] at h
    cases ha : addFiles z files z.NewWriter with
    | error e =>
      rw [ha] at h
      obtain ⟨msg, err, he⟩ := addFiles_error_wrapf z files z.NewWriter e ha
      rw [he] at h
      simp at h
    | ok w =>
      rw [ha] at h
      simp only at h
      cases hc : z.Close w with
      | error err => rw [hc] at h; simp at h
      | ok w1 => rw [hc] at h; simp at h
  · intro h
    subst h
    rfl

/-- Witness of C10 on the small zip writer: the empty mapping is refused, a
mapping of two files is bundled. -/
theorem C10_CreateZip_witness :
    CreateZip toyZip [] = .error (.errorf "no hay archivos para comprimir")
    ∧ CreateZip toyZip [("a.png", [1, 2]), ("../../etc/passwd", [3])] = .ok [1, 2, 3]
    ∧ addFiles toyZip [("a.png", [1, 2]), ("../../etc/passwd", [3])] []
        = .ok [("passwd", [3]), ("a.png", [1, 2])]
    ∧ (CreateZip toyZip [("a.png", [1, 2])] = .error (.errorf "no hay archivos para comprimir")
        ↔ [(("a.png" : String), ([1, 2] : Bytes))] = []) :=
  ⟨by decide, by decide, by decide,
    (C10_CreateZip_empty_mapping toyZip).2.1 [("a.png", [1, 2])]⟩

/-! ### `sanitizeFilename` on its own results -/

/-- Removing the `..` pairs changes nothing when no two neighbours are dots. -/
theorem removeDots_of_chain (s : List Char) (h : List.Chain' NoDotPair s) :
    replaceFrom ['.', '.'] [] 0 s = s := by
  induction s with
  | nil => rfl
  | cons c t ih =>
    have ht : List.Chain' NoDotPair t := h.tail
    by_cases hc : c = '.'
    · subst hc
      cases t with
      | nil => simp [replaceFrom, List.isPrefixOf]
      | cons d u =>
        have hd : d ≠ '.' := by
          intro hd
          have hrel : NoDotPair '.' d := by
            rw [List.chain'_cons] at h
            exact h.1
          exact hrel ⟨rfl, hd⟩
        have hu := ih ht
        rw [removeDots_nondot d u hd] at hu
        rw [removeDots_dot_nondot d u hd, List.cons.inj hu |>.2]
    · rw [removeDots_nondot c t hc, ih ht]

/-- The replacements change nothing in a name that has no two neighbouring dots
and none of the nine characters. -/
theorem replaceProblematic_of_clean (r : String) (hchain : List.Chain' NoDotPair r.data)
    (hlegal : ∀ c ∈ illegalChars, c ∉ r.data) : replaceProblematic r = r := by
  have hdata : (replaceProblematic r).data = r.data := by
    rw [replaceProblematic_data]
    have h1 : replaceAllChars r.data ['.', '.'] [] = r.data := by
      simp only [replaceAllChars, List.cons_ne_nil, if_false]
      exact removeDots_of_chain r.data hchain
    rw [h1]
    have h2 : ∀ c ∈ r.data, placeholderFor c = c := by
      intro c hc
      unfold placeholderFor
      rw [if_neg (fun hmem => hlegal c hmem hc)]
    rw [List.map_congr_left h2]
    simp
  cases hr : replaceProblematic r with
  | mk d =>
    rw [hr] at hdata
    cases r with
    | mk e =>
      simp only at hdata
      rw [hdata]

/-- The base name of a non-empty name without a separator is the name. -/
theorem Base_of_no_separator (r : String) (hne : r ≠ "") (hsep : '/' ∉ r.data) :
    Base r = r := by
  have hstrip : stripTrailingSeparators r.data = r.data := by
    unfold stripTrailingSeparators
    have : r.data.reverse.dropWhile (fun c => c == Separator) = r.data.reverse := by
      cases hrev : r.data.reverse with
      | nil => rfl
      | cons a t =>
        have ha : a ∈ r.data := by
          rw [← List.mem_reverse, hrev]
          exact List.mem_cons_self _ _
        have hane : ¬ a = '/' := fun e => hsep (e ▸ ha)
        rw [List.dropWhile_cons_of_neg]
        simp [Separator, hane]
    rw [this, List.reverse_reverse]
  have hlast : lastElement r.data = r.data := by
    unfold lastElement
    have : r.data.reverse.takeWhile (fun c => !(c == Separator)) = r.data.reverse := by
      rw [List.takeWhile_eq_self_iff]
      intro a ha
      have ha2 : a ∈ r.data := List.mem_reverse.mp ha
      have hane : ¬ a = '/' := fun e => hsep (e ▸ ha2)
      simp [Separator, hane]
    rw [this, List.reverse_reverse]
  have hdata : r.data ≠ [] := by
    intro h
    apply hne
    cases r with
    | mk e =>
      simp only at h
      rw [h]
  unfold Base
  rw [if_neg hne]
  simp only [hstrip, hlast, if_neg hdata]

/-- C15: `sanitizeFilename` is idempotent: sanitizing a sanitized name gives the
same name, for every string. -/
theorem C15_sanitizeFilename_idempotent (s : String) :
    sanitizeFilename (sanitizeFilename s) = sanitizeFilename s := by
  by_cases h : cleanBaseName s = "" ∨ cleanBaseName s = "."
  · have hs : sanitizeFilename s = "image" := by
      unfold sanitizeFilename
      rw [if_pos h]
    rw [hs]
    decide
  · have hs : sanitizeFilename s = cleanBaseName s := by
      unfold sanitizeFilename
      rw [if_neg h]
    rw [hs]
    have hne : cleanBaseName s ≠ "" := fun e => h (Or.inl e)
    have hlegal : ∀ c ∈ illegalChars, c ∉ (cleanBaseName s).data :=
      fun c hc => replaceProblematic_legal (Base s) c hc
    have hchain : List.Chain' NoDotPair (cleanBaseName s).data :=
      replaceProblematic_chain (Base s)
    have hbase : Base (cleanBaseName s) = cleanBaseName s :=
      Base_of_no_separator _ hne (hlegal '/' (by decide))
    have hclean : cleanBaseName (cleanBaseName s) = cleanBaseName s := by
      show replaceProblematic (Base (cleanBaseName s)) = cleanBaseName s
      rw [hbase]
      exact replaceProblematic_of_clean _ hchain hlegal
    show (let baseName := cleanBaseName (cleanBaseName s)
          if baseName = "" ∨ baseName = "." then "image" else baseName) = cleanBaseName s
    simp only [hclean, if_neg h]

/-! ### The handlers -/

/-- One turn of the loop of `compressBatch` for an image that passes. -/
theorem processImages_cons_pass {Err : Type} (validate : Bytes → Except Err Unit)
    (compress : Bytes → Int → ImageFormat → Except Err Bytes)
    (info : Bytes → Except Err (Int × Int × ImageFormat)) (errString : Err → String)
    (quality : Int) (format : ImageFormat) (img : ImageData) (out : Bytes)
    (rest : List ImageData) (i : Nat) (files : List (String × Bytes)) (log : List Call)
    (hv : validate img.Data = .ok ()) (hc : compress img.Data quality format = .ok out) :
    processImages (recordingProcessor validate compress info) errString quality format i
        (img :: rest) files log
      = processImages (recordingProcessor validate compress info) errString quality format
          (i + 1) rest (mapInsert files (entryFilename i img format) out)
          (log ++ callsFor quality format img) := by
  have h1 : ∀ (l : List Call) (d : Bytes),
      (recordingProcessor validate compress info).ValidateImage l d
        = (validate d, l ++ [Call.ValidateImage d]) := fun _ _ => rfl
  have h2 : ∀ (l : List Call) (d : Bytes) (q : Int) (f : ImageFormat),
      (recordingProcessor validate compress info).CompressImage l d q f
        = (compress d q f, l ++ [Call.CompressImage d q f]) := fun _ _ _ _ => rfl
  generalize recordingProcessor validate compress info = p at h1 h2 ⊢
  simp only [processImages, h1, h2, hv, hc, callsFor, List.append_assoc, List.singleton_append]

/-- One turn of the loop of `compressBatch` for an image that fails validation:
the loop ends with the 400 response naming the image, after the one call. -/
theorem processImages_cons_invalid {Err : Type} (validate : Bytes → Except Err Unit)
    (compress : Bytes → Int → ImageFormat → Except Err Bytes)
    (info : Bytes → Except Err (Int × Int × ImageFormat)) (errString : Err → String)
    (quality : Int) (format : ImageFormat) (img : ImageData) (err : Err)
    (rest : List ImageData) (i : Nat) (files : List (String × Bytes)) (log : List Call)
    (hv : validate img.Data = .error err) :
    processImages (recordingProcessor validate compress info) errString quality format i
        (img :: rest) files log
      = (.error (httpError ("Imagen " ++ toString (i + 1) ++ " inválida: " ++ errString err)
          StatusBadRequest), log ++ [Call.ValidateImage img.Data]) := by
  have h1 : ∀ (l : List Call) (d : Bytes),
      (recordingProcessor validate compress info).ValidateImage l d
        = (validate d, l ++ [Call.ValidateImage d]) := fun _ _ => rfl
  generalize recordingProcessor validate compress info = p at h1 ⊢
  simp only [processImages, h1, hv]

/-- The loop of `compressBatch` over images that all pass, followed by more
images: the calls for the passing images are made, their outputs are put into
the map, and the loop goes on with the other images. -/
theorem processImages_passing {Err : Type} (validate : Bytes → Except Err Unit)
    (compress : Bytes → Int → ImageFormat → Except Err Bytes)
    (info : Bytes → Except Err (Int × Int × ImageFormat)) (errString : Err → String)
    (quality : Int) (format : ImageFormat) (rest : List ImageData) :
    ∀ (images : List ImageData) (outs : List Bytes) (i : Nat) (files : List (String × Bytes))
      (log : List Call),
      List.Forall₂ (fun img out => validate img.Data = .ok () ∧
        compress img.Data quality format = .ok out) images outs →
      processImages (recordingProcessor validate compress info) errString quality format i
          (images ++ rest) files log
        = processImages (recordingProcessor validate compress info) errString quality format
            (i + images.length) rest
            (insertAll files ((entryFilenames format i images).zip outs))
            (log ++ images.flatMap (callsFor quality format)) := by
  intro images outs i files log h
  induction h generalizing i files log with
  | nil => simp [entryFilenames, insertAll]
  | @cons img out imgs outs1 hhead _ ih =>
    rw [List.cons_append,
      processImages_cons_pass validate compress info errString quality format img out
        (imgs ++ rest) i files log hhead.1 hhead.2, ih]
    simp only [List.length_cons, entryFilenames, List.zip_cons_cons, insertAll,
      List.foldl_cons, List.flatMap_cons, List.append_assoc]
    congr 1
    omega

/-- Images that each validate and compress have a list of outputs. -/
theorem outputs_of_passing {Err : Type} (validate : Bytes → Except Err Unit)
    (compress : Bytes → Int → ImageFormat → Except Err Bytes) (quality : Int)
    (format : ImageFormat) (images : List ImageData)
    (h : ∀ img ∈ images, validate img.Data = .ok () ∧
      ∃ out, compress img.Data quality format = .ok out) :
    ∃ outs : List Bytes, List.Forall₂ (fun img out => validate img.Data = .ok () ∧
      compress img.Data quality format = .ok out) images outs := by
  induction images with
  | nil => exact ⟨[], List.Forall₂.nil⟩
  | cons img rest ih =>
    obtain ⟨outs, houts⟩ := ih (fun x hx => h x (List.mem_cons_of_mem _ hx))
    obtain ⟨hv, out, hc⟩ := h img (List.mem_cons_self _ _)
    exact ⟨out :: outs, List.Forall₂.cons ⟨hv, hc⟩ houts⟩

/-- C11: for a batch request with more images than the maximum batch size,
`compressBatch` answers 400 with the message "Máximo <max> imágenes por lote"
and leaves the state of the services as it was, whatever the implementations of
the two interfaces; with services that record their calls, no call of
`ValidateImage`, `CompressImage` or `CreateZip` is recorded. -/
theorem C11_batch_size_exceeded {S Err : Type} (processor : ImageProcessor S Err)
    (zipService : ZipService S Err) (errString : Err → String) (maxBatchSize now : Int)
    (req : BatchCompressionRequest) (s : S)
    (hsize : (req.Images.length : Int) > maxBatchSize) :
    compressBatch processor zipService errString maxBatchSize now (some req) s
      = (httpError ("Máximo " ++ toString maxBatchSize ++ " imágenes por lote") 400, s)
    ∧ (compressBatch processor zipService errString maxBatchSize now (some req) s).1.status = 400
    ∧ (∀ (Err1 : Type) (validate : Bytes → Except Err1 Unit)
        (compress : Bytes → Int → ImageFormat → Except Err1 Bytes)
        (info : Bytes → Except Err1 (Int × Int × ImageFormat))
        (createZip : List (String × Bytes) → Except Err1 Bytes) (errString1 : Err1 → String),
        (compressBatch (recordingProcessor validate compress info) (recordingZip createZip)
          errString1 maxBatchSize now (some req) []).2 = []) := by
  have h : ∀ (S1 Err1 : Type) (p : ImageProcessor S1 Err1) (z : ZipService S1 Err1)
      (e : Err1 → String) (s1 : S1),
      compressBatch p z e maxBatchSize now (some req) s1
        = (httpError ("Máximo " ++ toString maxBatchSize ++ " imágenes por lote") 400, s1) := by
    intro S1 Err1 p z e s1
    simp only [compressBatch, if_pos hsize, StatusBadRequest]
  refine ⟨h S Err processor zipService errString s, ?_, ?_⟩
  · rw [h S Err processor zipService errString s]
    rfl
  · intro Err1 validate compress info createZip errString1
    rw [h]

/-- Witness of C11: eleven images against a maximum of ten, on the services of
`main` over the small codec and the small zip writer. -/
theorem C11_batch_size_witness :
    (((⟨List.replicate 11 ⟨"a.png", [1, 100, 50]⟩, 80, "png"⟩ :
        BatchCompressionRequest).Images.length : Int) > 10)
    ∧ compressBatch (serviceProcessor toyCodec 33554432) (serviceZip toyZip)
        (errorString id) 10 1700000000
        (some ⟨List.replicate 11 ⟨"a.png", [1, 100, 50]⟩, 80, "png"⟩) []
      = (httpError "Máximo 10 imágenes por lote" 400, [])
    ∧ (compressBatch (serviceProcessor toyCodec 33554432) (serviceZip toyZip)
        (errorString id) 10 1700000000
        (some ⟨List.replicate 11 ⟨"a.png", [1, 100, 50]⟩, 80, "png"⟩) []).1.status = 400 :=
  ⟨by decide, by decide,
    (C11_batch_size_exceeded (serviceProcessor toyCodec 33554432) (serviceZip toyZip)
      (errorString id) 10 1700000000 ⟨List.replicate 11 ⟨"a.png", [1, 100, 50]⟩, 80, "png"⟩ []
      (by decide)).2.1⟩

/-- C12: for a batch request within the size limit whose image at position `k`
(from 0) is the first to fail validation, the images before it validating and
compressing, `compressBatch` answers with status 400 and the body
"Imagen <k+1> inválida: <error>" (and a line end); the calls made are
`ValidateImage` and `CompressImage` for each image before position `k`, then
`ValidateImage` for the image at position `k`, and no other: no later image is
validated or compressed and `CreateZip` is not called, so no archive is
produced. -/
theorem C12_first_invalid_image {Err : Type} (validate : Bytes → Except Err Unit)
    (compress : Bytes → Int → ImageFormat → Except Err Bytes)
    (info : Bytes → Except Err (Int × Int × ImageFormat))
    (createZip : List (String × Bytes) → Except Err Bytes) (errString : Err → String)
    (maxBatchSize now quality : Int) (format : ImageFormat) (before : List ImageData)
    (bad : ImageData) (after : List ImageData) (err : Err)
    (hsize : ((before ++ bad :: after).length : Int) ≤ maxBatchSize)
    (hbefore : ∀ img ∈ before, validate img.Data = .ok () ∧
      ∃ out, compress img.Data quality format = .ok out)
    (hbad : validate bad.Data = .error err) :
    compressBatch (recordingProcessor validate compress info) (recordingZip createZip)
        errString maxBatchSize now (some ⟨before ++ bad :: after, quality, format⟩) []
      = (httpError ("Imagen " ++ toString (before.length + 1) ++ " inválida: " ++ errString err)
          400,
         before.flatMap (callsFor quality format) ++ [Call.ValidateImage bad.Data])
    ∧ (compressBatch (recordingProcessor validate compress info) (recordingZip createZip)
        errString maxBatchSize now (some ⟨before ++ bad :: after, quality, format⟩)
        []).1.status = 400
    ∧ (compressBatch (recordingProcessor validate compress info) (recordingZip createZip)
        errString maxBatchSize now (some ⟨before ++ bad :: after, quality, format⟩)
        []).1.body
      = Body.text ("Imagen " ++ toString (before.length + 1) ++ " inválida: "
          ++ errString err ++ "\n")
    ∧ (compressBatch (recordingProcessor validate compress info) (recordingZip createZip)
        errString maxBatchSize now (some ⟨before ++ bad :: after, quality, format⟩)
        []).2
      = before.flatMap (callsFor quality format) ++ [Call.ValidateImage bad.Data] := by
  obtain ⟨outs, houts⟩ := outputs_of_passing validate compress quality format before hbefore
  have hnot : ¬ (((before ++ bad :: after).length : Int) > maxBatchSize) := not_lt.mpr hsize
  have h : compressBatch (recordingProcessor validate compress info) (recordingZip createZip)
        errString maxBatchSize now (some ⟨before ++ bad :: after, quality, format⟩) []
      = (httpError ("Imagen " ++ toString (before.length + 1) ++ " inválida: "
          ++ errString err) 400,
         before.flatMap (callsFor quality format) ++ [Call.ValidateImage bad.Data]) := by
    simp only [compressBatch, if_neg hnot]
    rw [processImages_passing validate compress info errString quality format (bad :: after)
        before outs 0 [] [] houts,
      processImages_cons_invalid validate compress info errString quality format bad err after
        _ _ _ hbad]
    simp only [Nat.zero_add, List.nil_append, StatusBadRequest]
  refine ⟨h, ?_, ?_, ?_⟩
  · rw [h]; rfl
  · rw [h]
    simp only [httpError, String.append_assoc]
  · rw [h]

/-- Witness of C12: the second of three images is not an image; the answer has
status 400 and the body "Imagen 2 inválida: datos de imagen inválidos". -/
theorem C12_first_invalid_witness :
    (compressBatch (serviceProcessor toyCodec 33554432) (serviceZip toyZip) (errorString id)
        10 1700000000
        (some ⟨[⟨"a.png", [1, 100, 50]⟩, ⟨"b.png", [7, 7]⟩, ⟨"c.png", [1, 20, 10]⟩], 80, "png"⟩)
        []).1.status = 400
    ∧ (compressBatch (serviceProcessor toyCodec 33554432) (serviceZip toyZip) (errorString id)
        10 1700000000
        (some ⟨[⟨"a.png", [1, 100, 50]⟩, ⟨"b.png", [7, 7]⟩, ⟨"c.png", [1, 20, 10]⟩], 80, "png"⟩)
        []).1.body = Body.text "Imagen 2 inválida: datos de imagen inválidos\n"
    ∧ (compressBatch (serviceProcessor toyCodec 33554432) (serviceZip toyZip) (errorString id)
        10 1700000000
        (some ⟨[⟨"a.png", [1, 100, 50]⟩, ⟨"b.png", [7, 7]⟩, ⟨"c.png", [1, 20, 10]⟩], 80, "png"⟩)
        []).2
      = [Call.ValidateImage [1, 100, 50], Call.CompressImage [1, 100, 50] 80 "png",
         Call.ValidateImage [7, 7]]
    ∧ compressBatch (serviceProcessor toyCodec 33554432) (serviceZip toyZip) (errorString id)
        10 1700000000
        (some ⟨[⟨"a.png", [1, 100, 50]⟩, ⟨"b.png", [7, 7]⟩, ⟨"c.png", [1, 20, 10]⟩], 80, "png"⟩)
        []
      = (httpError "Imagen 2 inválida: datos de imagen inválidos" 400,
         [Call.ValidateImage [1, 100, 50], Call.CompressImage [1, 100, 50] 80 "png",
          Call.ValidateImage [7, 7]]) :=
  ⟨by decide, by decide, by decide,
    (C12_first_invalid_image (ValidateImage toyCodec (NewImageProcessorService 33554432))
      (CompressImage toyCodec) (GetImageInfo toyCodec) (CreateZip toyZip) (errorString id)
      10 1700000000 80 "png" [⟨"a.png", [1, 100, 50]⟩] ⟨"b.png", [7, 7]⟩
      [⟨"c.png", [1, 20, 10]⟩] Error.ErrInvalidImageData (by decide)
      (fun img himg => by
        rw [List.mem_singleton] at himg
        subst himg
        exact ⟨by decide, [1, 100, 50], by decide⟩)
      (by decide)).1⟩

/-- With a valid image and a quality that parses to a value outside 1 to 100,
`compressImage` answers 500 on the services of `main`, for every codec. -/
theorem compressImage_invalid_quality {Img E : Type} (codec : Codec Img E)
    (maxImageSize now : Int) (inner : E → String) (r : MultipartRequest) (imageData : Bytes)
    (log : List Call) (hparse : r.malformed = false) (himage : r.image = .content imageData)
    (hvalid : ValidateImage codec (NewImageProcessorService maxImageSize) imageData = .ok ())
    (hq : qualityParam (r.FormValue "quality") < 1 ∨ qualityParam (r.FormValue "quality") > 100) :
    (compressImage (serviceProcessor codec maxImageSize) (errorString inner) now r log).1
      = httpError "Error comprimiendo imagen: calidad de compresión inválida" 500 := by
  have hne : ¬ imageData.length = 0 := by
    intro h0
    simp [ValidateImage, h0] at hvalid
  have hc : ∀ format, CompressImage codec imageData (qualityParam (r.FormValue "quality")) format
      = .error .ErrInvalidQuality := by
    intro format
    simp [CompressImage, hne, hq]
  simp only [compressImage, hparse, himage, serviceProcessor, recordingProcessor, hvalid, hc,
    errorString, StatusInternalServerError]
  rfl

/-- With a valid first image and a quality outside 1 to 100, `compressBatch`
answers 500 on the services of `main`, for every codec and zip writer. -/
theorem compressBatch_invalid_quality {Img W E : Type} (codec : Codec Img E)
    (z : ZipWriter W E) (maxImageSize maxBatchSize now : Int) (inner : E → String)
    (img : ImageData) (rest : List ImageData) (quality : Int) (format : ImageFormat)
    (log : List Call) (hsize : ((img :: rest).length : Int) ≤ maxBatchSize)
    (hvalid : ValidateImage codec (NewImageProcessorService maxImageSize) img.Data = .ok ())
    (hq : quality < 1 ∨ quality > 100) :
    (compressBatch (serviceProcessor codec maxImageSize) (serviceZip z) (errorString inner)
        maxBatchSize now (some ⟨img :: rest, quality, format⟩) log).1
      = httpError "Error comprimiendo imagen 1: calidad de compresión inválida" 500 := by
  have hne : ¬ img.Data.length = 0 := by
    intro h0
    simp [ValidateImage, h0] at hvalid
  have hc : CompressImage codec img.Data quality format = .error .ErrInvalidQuality := by
    simp [CompressImage, hne, hq]
  have hnot : ¬ (((img :: rest).length : Int) > maxBatchSize) := not_lt.mpr hsize
  simp only [compressBatch, if_neg hnot, processImages, serviceProcessor, recordingProcessor,
    hvalid, hc, errorString, StatusInternalServerError]
  rfl

/-- C13, on the code: a valid image sent to POST /compress with the quality
field `0` or `101`, and a batch of one valid image sent to POST /compress/batch
with quality 0 or 101, are answered with status 500, which is not in the 4xx
class; validation had accepted the image each time. -/
theorem C13_invalid_quality_answers_500 :
    ValidateImage toyCodec (NewImageProcessorService 33554432) [1, 100, 50] = .ok ()
    ∧ compressImage (serviceProcessor toyCodec 33554432) (errorString id) 1700000000
        ⟨false, .content [1, 100, 50], [("quality", "0")]⟩ []
      = (httpError "Error comprimiendo imagen: calidad de compresión inválida" 500,
         [Call.ValidateImage [1, 100, 50], Call.CompressImage [1, 100, 50] 0 "jpeg"])
    ∧ compressImage (serviceProcessor toyCodec 33554432) (errorString id) 1700000000
        ⟨false, .content [1, 100, 50], [("quality", "101"), ("format", "png")]⟩ []
      = (httpError "Error comprimiendo imagen: calidad de compresión inválida" 500,
         [Call.ValidateImage [1, 100, 50], Call.CompressImage [1, 100, 50] 101 "png"])
    ∧ compressBatch (serviceProcessor toyCodec 33554432) (serviceZip toyZip) (errorString id)
        10 1700000000 (some ⟨[⟨"a.png", [1, 100, 50]⟩], 0, "jpeg"⟩) []
      = (httpError "Error comprimiendo imagen 1: calidad de compresión inválida" 500,
         [Call.ValidateImage [1, 100, 50], Call.CompressImage [1, 100, 50] 0 "jpeg"])
    ∧ (compressBatch (serviceProcessor toyCodec 33554432) (serviceZip toyZip) (errorString id)
        10 1700000000 (some ⟨[⟨"a.png", [1, 100, 50]⟩], 101, "png"⟩) []).1.status = 500
    ∧ ¬ (400 ≤ (httpError "Error comprimiendo imagen: calidad de compresión inválida"
          500).status
        ∧ (httpError "Error comprimiendo imagen: calidad de compresión inválida" 500).status
          ≤ 499) := by
  refine ⟨by decide, by decide, by decide, by decide, by decide, by decide⟩

/-- C14: in `compressImage`, for a request whose form parses, whose image is
read and passes validation, `CompressImage` is called once, with the image and
the effective parameters.  The quality is 80 when the field `quality` is absent
or empty and the integer `strconv.Atoi` reads when the field parses (it is 80
too when the field does not parse); the format is `jpeg` when the field `format`
is absent or empty and the value of the field otherwise. -/
theorem C14_compress_parameters {Err : Type} (validate : Bytes → Except Err Unit)
    (compress : Bytes → Int → ImageFormat → Except Err Bytes)
    (info : Bytes → Except Err (Int × Int × ImageFormat)) (errString : Err → String)
    (now : Int) (r : MultipartRequest) (imageData : Bytes)
    (hparse : r.malformed = false) (himage : r.image = .content imageData)
    (hvalid : validate imageData = .ok ()) :
    (compressImage (recordingProcessor validate compress info) errString now r []).2
      = [Call.ValidateImage imageData,
         Call.CompressImage imageData (qualityParam (r.FormValue "quality"))
           (formatParam (r.FormValue "format"))]
    ∧ (r.form.lookup "quality" = none ∨ r.form.lookup "quality" = some "" →
        qualityParam (r.FormValue "quality") = 80)
    ∧ (∀ (v : String) (q : Int), r.form.lookup "quality" = some v → v ≠ "" →
        Atoi v = some q → qualityParam (r.FormValue "quality") = q)
    ∧ (∀ v : String, r.form.lookup "quality" = some v → Atoi v = none →
        qualityParam (r.FormValue "quality") = 80)
    ∧ (r.form.lookup "format" = none ∨ r.form.lookup "format" = some "" →
        formatParam (r.FormValue "format") = "jpeg")
    ∧ (∀ v : String, r.form.lookup "format" = some v → v ≠ "" →
        formatParam (r.FormValue "format") = v) := by
  refine ⟨?_, ?_, ?_, ?_, ?_, ?_⟩
  · simp only [compressImage, hparse, himage, recordingProcessor, hvalid]
    cases compress imageData (qualityParam (r.FormValue "quality"))
      (formatParam (r.FormValue "format")) <;> rfl
  · rintro (h | h) <;> simp [MultipartRequest.FormValue, h, qualityParam]
  · intro v q hv hne hq
    simp [MultipartRequest.FormValue, hv, qualityParam, hne, hq]
  · intro v hv hq
    simp [MultipartRequest.FormValue, hv, qualityParam, hq]
  · rintro (h | h) <;> simp [MultipartRequest.FormValue, h, formatParam, JPEG]
  · intro v hv hne
    simp [MultipartRequest.FormValue, hv, formatParam, hne]

/-- Witness of C14: a form with `quality=95` and `format=png`, and a form with
neither field, on the services of `main` over the small codec. -/
theorem C14_compress_parameters_witness :
    (compressImage (serviceProcessor toyCodec 33554432) (errorString id) 1700000000
        ⟨false, .content [1, 100, 50], [("quality", "95"), ("format", "png")]⟩ []).2
      = [Call.ValidateImage [1, 100, 50], Call.CompressImage [1, 100, 50] 95 "png"]
    ∧ (compressImage (serviceProcessor toyCodec 33554432) (errorString id) 1700000000
        ⟨false, .content [1, 100, 50], []⟩ []).2
      = [Call.ValidateImage [1, 100, 50], Call.CompressImage [1, 100, 50] 80 "jpeg"]
    ∧ (compressImage (serviceProcessor toyCodec 33554432) (errorString id) 1700000000
        ⟨false, .content [1, 100, 50], [("quality", "abc"), ("format", "")]⟩ []).2
      = [Call.ValidateImage [1, 100, 50], Call.CompressImage [1, 100, 50] 80 "jpeg"]
    ∧ (compressImage (recordingProcessor
          (ValidateImage toyCodec (NewImageProcessorService 33554432))
          (CompressImage toyCodec) (GetImageInfo toyCodec)) (errorString id) 1700000000
        ⟨false, .content [1, 100, 50], [("quality", "95"), ("format", "png")]⟩ []).2
      = [Call.ValidateImage [1, 100, 50],
         Call.CompressImage [1, 100, 50]
           (qualityParam ((⟨false, .content [1, 100, 50],
             [("quality", "95"), ("format", "png")]⟩ : MultipartRequest).FormValue "quality"))
           (formatParam ((⟨false, .content [1, 100, 50],
             [("quality", "95"), ("format", "png")]⟩ : MultipartRequest).FormValue "format"))] :=
  ⟨by decide, by decide, by decide,
    (C14_compress_parameters (ValidateImage toyCodec (NewImageProcessorService 33554432))
      (CompressImage toyCodec) (GetImageInfo toyCodec) (errorString id) 1700000000
      ⟨false, .content [1, 100, 50], [("quality", "95"), ("format", "png")]⟩ [1, 100, 50]
      rfl rfl (by decide)).1⟩

/-! ### The map of `compressBatch` -/

/-- The keys after `files[k] = v`. -/
theorem mapInsert_keys (m : List (String × Bytes)) (k : String) (v : Bytes) :
    (mapInsert m k v).map Prod.fst
      = if k ∈ m.map Prod.fst then m.map Prod.fst else m.map Prod.fst ++ [k] := by
  induction m with
  | nil => simp [mapInsert]
  | cons e rest ih =>
    obtain ⟨k1, v1⟩ := e
    by_cases h : k1 = k
    · subst h
      simp [mapInsert]
    · have h2 : ¬ k = k1 := fun e => h e.symm
      simp only [mapInsert, if_neg h, List.map_cons, ih, List.mem_cons, h2, false_or]
      by_cases hk : k ∈ rest.map Prod.fst
      · simp only [if_pos hk]
      · simp only [if_neg hk, List.cons_append]

theorem mapInsert_nodup (m : List (String × Bytes)) (k : String) (v : Bytes)
    (h : (m.map Prod.fst).Nodup) : ((mapInsert m k v).map Prod.fst).Nodup := by
  rw [mapInsert_keys]
  by_cases hk : k ∈ m.map Prod.fst
  · rw [if_pos hk]; exact h
  · rw [if_neg hk]
    refine List.Nodup.append h (List.nodup_singleton k) ?_
    intro a ha ha1
    rw [List.mem_singleton] at ha1
    exact hk (ha1 ▸ ha)

theorem mapInsert_mem_keys (m : List (String × Bytes)) (k : String) (v : Bytes) (k1 : String) :
    k1 ∈ (mapInsert m k v).map Prod.fst ↔ k1 = k ∨ k1 ∈ m.map Prod.fst := by
  rw [mapInsert_keys]
  by_cases hk : k ∈ m.map Prod.fst
  · rw [if_pos hk]
    constructor
    · exact Or.inr
    · rintro (h | h)
      · exact h ▸ hk
      · exact h
  · rw [if_neg hk, List.mem_append, List.mem_singleton]
    exact Or.comm

theorem mapInsert_mem_self (m : List (String × Bytes)) (k : String) (v : Bytes) :
    (k, v) ∈ mapInsert m k v := by
  induction m with
  | nil => simp [mapInsert]
  | cons e rest ih =>
    obtain ⟨k1, v1⟩ := e
    by_cases h : k1 = k
    · simp [mapInsert, h]
    · simp only [mapInsert, if_neg h]
      exact List.mem_cons_of_mem _ ih

theorem mapInsert_mem_other (m : List (String × Bytes)) (k : String) (v : Bytes)
    (k1 : String) (v1 : Bytes) (hne : k1 ≠ k) (h : (k1, v1) ∈ m) :
    (k1, v1) ∈ mapInsert m k v := by
  induction m with
  | nil => simp at h
  | cons e rest ih =>
    obtain ⟨k2, v2⟩ := e
    by_cases h2 : k2 = k
    · simp only [mapInsert, if_pos h2]
      rcases List.mem_cons.mp h with heq | hrest
      · exact absurd ((Prod.mk.inj heq).1.trans h2) hne
      · exact List.mem_cons_of_mem _ hrest
    · simp only [mapInsert, if_neg h2]
      rcases List.mem_cons.mp h with heq | hrest
      · rw [heq]; exact List.mem_cons_self _ _
      · exact List.mem_cons_of_mem _ (ih hrest)

theorem insertAll_nodup (entries : List (String × Bytes)) :
    ∀ files : List (String × Bytes), (files.map Prod.fst).Nodup →
      ((insertAll files entries).map Prod.fst).Nodup := by
  induction entries with
  | nil => intro files h; exact h
  | cons e rest ih =>
    intro files h
    exact ih _ (mapInsert_nodup files e.1 e.2 h)

theorem insertAll_mem_keys (entries : List (String × Bytes)) :
    ∀ (files : List (String × Bytes)) (k : String),
      k ∈ (insertAll files entries).map Prod.fst
        ↔ k ∈ files.map Prod.fst ∨ k ∈ entries.map Prod.fst := by
  induction entries with
  | nil => intro files k; simp [insertAll]
  | cons e rest ih =>
    intro files k
    have := ih (mapInsert files e.1 e.2) k
    simp only [insertAll, List.foldl_cons] at this ⊢
    rw [this, mapInsert_mem_keys, List.map_cons, List.mem_cons]
    tauto

theorem insertAll_mem_keep (entries : List (String × Bytes)) :
    ∀ (files : List (String × Bytes)) (k : String) (v : Bytes), (k, v) ∈ files →
      k ∉ entries.map Prod.fst → (k, v) ∈ insertAll files entries := by
  induction entries with
  | nil => intro files k v h _; exact h
  | cons e rest ih =>
    intro files k v h hk
    have hne : k ≠ e.1 := fun heq => hk (by rw [heq]; exact List.mem_cons_self _ _)
    have hrest : k ∉ rest.map Prod.fst := fun hmem => hk (List.mem_cons_of_mem _ hmem)
    exact ih _ k v (mapInsert_mem_other files e.1 e.2 k v hne h) hrest

/-- The last entry written under a key is the one the map holds. -/
theorem insertAll_mem_last (files first : List (String × Bytes)) (k : String) (v : Bytes)
    (later : List (String × Bytes)) (hk : k ∉ later.map Prod.fst) :
    (k, v) ∈ insertAll files (first ++ (k, v) :: later) := by
  unfold insertAll
  rw [List.foldl_append, List.foldl_cons]
  exact insertAll_mem_keep later _ k v (mapInsert_mem_self _ k v) hk

/-- A map with distinct keys holds one value under a key. -/
theorem value_unique_of_nodup_keys (m : List (String × Bytes)) (h : (m.map Prod.fst).Nodup)
    (k : String) (v v1 : Bytes) (hv : (k, v) ∈ m) (hv1 : (k, v1) ∈ m) : v1 = v := by
  induction m with
  | nil => simp at hv
  | cons e rest ih =>
    rw [List.map_cons, List.nodup_cons] at h
    rcases List.mem_cons.mp hv with h1 | h1 <;> rcases List.mem_cons.mp hv1 with h2 | h2
    · exact (Prod.mk.inj (h2.trans h1.symm)).2
    · exact absurd (List.mem_map_of_mem Prod.fst h2) (by rw [← h1] at h; exact h.1)
    · exact absurd (List.mem_map_of_mem Prod.fst h1) (by rw [← h2] at h; exact h.1)
    · exact ih h.2 h1 h2

/-- The map built from an empty map has one entry per distinct key written. -/
theorem insertAll_length (entries : List (String × Bytes)) :
    (insertAll [] entries).length = (entries.map Prod.fst).dedup.length := by
  have hnodup := insertAll_nodup entries [] List.nodup_nil
  have hperm : ((insertAll [] entries).map Prod.fst).Perm (entries.map Prod.fst).dedup := by
    rw [List.perm_ext_iff_of_nodup hnodup (List.nodup_dedup _)]
    intro k
    rw [insertAll_mem_keys, List.mem_dedup]
    simp
  rw [← hperm.length_eq, List.length_map]

theorem dedup_length_lt_of_not_nodup (l : List String) (h : ¬ l.Nodup) :
    l.dedup.length < l.length := by
  rcases Nat.lt_or_ge l.dedup.length l.length with hlt | hge
  · exact hlt
  · exfalso
    apply h
    have hle := (List.dedup_sublist l).length_le
    have heq := (List.dedup_sublist l).eq_of_length (Nat.le_antisymm hle hge)
    exact List.dedup_eq_self.mp heq

theorem entryFilenames_length (format : ImageFormat) (images : List ImageData) :
    ∀ i : Nat, (entryFilenames format i images).length = images.length := by
  induction images with
  | nil => intro i; rfl
  | cons img rest ih => intro i; simp [entryFilenames, ih]

theorem entryFilenames_get (format : ImageFormat) (images : List ImageData) :
    ∀ i0 i : Nat, (entryFilenames format i0 images)[i]?
      = images[i]?.map (fun img => entryFilename (i0 + i) img format) := by
  induction images with
  | nil => intro i0 i; simp [entryFilenames]
  | cons img rest ih =>
    intro i0 i
    cases i with
    | zero => simp [entryFilenames]
    | succ n =>
      simp only [entryFilenames, List.getElem?_cons_succ, ih]
      congr 1
      funext x
      congr 1
      omega

/-- C16: for a batch within the size limit whose images all validate and
compress, the mapping `compressBatch` hands to `CreateZip` is `batchFiles`: each
output is put under the key of its image, the given filename or
`image_<i+1>.<format>` when that is empty.  The keys of the mapping are distinct
and are exactly the keys of the images, so it has as many entries as there are
distinct keys; when two images have the same key it has fewer entries than the
batch has images; and under each key it holds the output of the last image with
that key, and no other. -/
theorem C16_batch_mapping_keys {Err : Type} (validate : Bytes → Except Err Unit)
    (compress : Bytes → Int → ImageFormat → Except Err Bytes)
    (info : Bytes → Except Err (Int × Int × ImageFormat))
    (createZip : List (String × Bytes) → Except Err Bytes) (errString : Err → String)
    (maxBatchSize now quality : Int) (format : ImageFormat) (images : List ImageData)
    (outs : List Bytes) (hsize : (images.length : Int) ≤ maxBatchSize)
    (hpass : List.Forall₂ (fun img out => validate img.Data = .ok () ∧
      compress img.Data quality format = .ok out) images outs) :
    (compressBatch (recordingProcessor validate compress info) (recordingZip createZip)
        errString maxBatchSize now (some ⟨images, quality, format⟩) []).2
      = images.flatMap (callsFor quality format)
          ++ [Call.CreateZip (batchFiles format images outs)]
    ∧ (∀ (i : Nat) (img : ImageData), images[i]? = some img →
        (entryFilenames format 0 images)[i]?
          = some (if img.Filename = "" then "image_" ++ toString (i + 1) ++ "." ++ format
              else img.Filename))
    ∧ ((batchFiles format images outs).map Prod.fst).Nodup
    ∧ (∀ name : String, name ∈ (batchFiles format images outs).map Prod.fst
        ↔ name ∈ entryFilenames format 0 images)
    ∧ (batchFiles format images outs).length = (entryFilenames format 0 images).dedup.length
    ∧ (∀ i j : Nat, i < j → j < images.length →
        (entryFilenames format 0 images)[i]? = (entryFilenames format 0 images)[j]? →
        (batchFiles format images outs).length < images.length)
    ∧ ((entryFilenames format 0 images).Nodup →
        (batchFiles format images outs).length = images.length)
    ∧ (∀ (first : List (String × Bytes)) (name : String) (out : Bytes)
        (later : List (String × Bytes)),
        (entryFilenames format 0 images).zip outs = first ++ (name, out) :: later →
        name ∉ later.map Prod.fst →
        (name, out) ∈ batchFiles format images outs
          ∧ ∀ out1 : Bytes, (name, out1) ∈ batchFiles format images outs → out1 = out) := by
  have hlen : (entryFilenames format 0 images).length ≤ outs.length := by
    rw [entryFilenames_length, hpass.length_eq]
  have hkeys : ((entryFilenames format 0 images).zip outs).map Prod.fst
      = entryFilenames format 0 images := List.map_fst_zip _ _ hlen
  have hnodup : ((batchFiles format images outs).map Prod.fst).Nodup :=
    insertAll_nodup _ [] List.nodup_nil
  have hcount : (batchFiles format images outs).length
      = (entryFilenames format 0 images).dedup.length := by
    unfold batchFiles
    rw [insertAll_length, hkeys]
  refine ⟨?_, ?_, hnodup, ?_, hcount, ?_, ?_, ?_⟩
  · have hnot : ¬ ((images.length : Int) > maxBatchSize) := not_lt.mpr hsize
    have hloop := processImages_passing validate compress info errString quality format []
      images outs 0 [] [] hpass
    rw [List.append_nil] at hloop
    simp only [compressBatch, if_neg hnot, hloop, processImages, List.nil_append, recordingZip,
      batchFiles]
    cases createZip (insertAll [] ((entryFilenames format 0 images).zip outs)) <;> rfl
  · intro i img himg
    rw [entryFilenames_get, himg]
    simp [entryFilename]
  · intro name
    unfold batchFiles
    rw [insertAll_mem_keys, hkeys]
    simp
  · intro i j hij hj heq
    rw [hcount]
    have hnot : ¬ (entryFilenames format 0 images).Nodup := by
      intro hn
      rw [List.nodup_iff_getElem?_ne_getElem?] at hn
      exact hn i j hij (by rw [entryFilenames_length]; exact hj) heq
    have := dedup_length_lt_of_not_nodup _ hnot
    rw [entryFilenames_length] at this
    exact this
  · intro hn
    rw [hcount, List.dedup_eq_self.mpr hn, entryFilenames_length]
  · intro first name out later hsplit hlater
    have hmem : (name, out) ∈ batchFiles format images outs := by
      unfold batchFiles
      rw [hsplit]
      exact insertAll_mem_last [] first name out later hlater
    exact ⟨hmem, fun out1 h1 => value_unique_of_nodup_keys _ hnodup name out out1 hmem h1⟩

/-- Witness of C16: three images, the first and the third named `a.png`, the
second without a name; the mapping has the two keys `a.png` and `image_2.png`,
and `a.png` holds the output of the third image. -/
theorem C16_batch_mapping_witness :
    batchFiles "png" [⟨"a.png", [1, 100, 50]⟩, ⟨"", [1, 20, 10]⟩, ⟨"a.png", [1, 30, 30]⟩]
        [[1, 100, 50], [1, 20, 10], [1, 30, 30]]
      = [("a.png", [1, 30, 30]), ("image_2.png", [1, 20, 10])]
    ∧ (compressBatch (serviceProcessor toyCodec 33554432) (serviceZip toyZip) (errorString id)
        10 1700000000
        (some ⟨[⟨"a.png", [1, 100, 50]⟩, ⟨"", [1, 20, 10]⟩, ⟨"a.png", [1, 30, 30]⟩], 80, "png"⟩)
        []).2
      = [Call.ValidateImage [1, 100, 50], Call.CompressImage [1, 100, 50] 80 "png",
         Call.ValidateImage [1, 20, 10], Call.CompressImage [1, 20, 10] 80 "png",
         Call.ValidateImage [1, 30, 30], Call.CompressImage [1, 30, 30] 80 "png",
         Call.CreateZip [("a.png", [1, 30, 30]), ("image_2.png", [1, 20, 10])]]
    ∧ (batchFiles "png" [⟨"a.png", [1, 100, 50]⟩, ⟨"", [1, 20, 10]⟩, ⟨"a.png", [1, 30, 30]⟩]
        [[1, 100, 50], [1, 20, 10], [1, 30, 30]]).length
      = (entryFilenames "png" 0
          [⟨"a.png", [1, 100, 50]⟩, ⟨"", [1, 20, 10]⟩, ⟨"a.png", [1, 30, 30]⟩]).dedup.length :=
  ⟨by decide, by decide,
    (C16_batch_mapping_keys (ValidateImage toyCodec (NewImageProcessorService 33554432))
      (CompressImage toyCodec) (GetImageInfo toyCodec) (CreateZip toyZip) (errorString id)
      10 1700000000 80 "png"
      [⟨"a.png", [1, 100, 50]⟩, ⟨"", [1, 20, 10]⟩, ⟨"a.png", [1, 30, 30]⟩]
      [[1, 100, 50], [1, 20, 10], [1, 30, 30]] (by decide)
      (List.Forall₂.cons ⟨by decide, by decide⟩
        (List.Forall₂.cons ⟨by decide, by decide⟩
          (List.Forall₂.cons ⟨by decide, by decide⟩ List.Forall₂.nil)))).2.2.2.2.1⟩

end ImageCompress
